import Mathlib

/-! WWbb: a shallow embedding of `src/rivet/WWbb/WWbb.cc`

The Rivet analysis `WWbb` is embedded as pure functions on an explicit analysis
state.  Kinematic values are rationals (an ordered field), so comparisons are
total.  The operations the analysis calls in the Rivet framework (the distance
`deltaR`, four-momentum arithmetic, `PID::hasBottom`) are not part of the repository
and are taken as a parameter `Rivet`; a four-momentum is the record of its
observables.  The sum and the product of the lepton isolation test are computed in
double precision: their exact results go through the rounding `Rivet.round`.
-/

namespace WWbb

/-! ## Data model -/

/-- Four-momentum, given by the observables the analysis reads from it:
`pT()`, `rapidity()`, `eta()`, `mass()` and the azimuth. -/
structure FourMomentum where
  pT : ℚ
  rapidity : ℚ
  eta : ℚ
  phi : ℚ
  mass : ℚ
  deriving DecidableEq, Repr

/-- Framework functions called by the analysis: the free function
`deltaR(a, b, RAPIDITY)`, `operator+` and unary `operator-` on four-momenta, and
`PID::hasBottom`; and `round`, the rounding to type `double` of the exact result of an
arithmetic operation or of a decimal literal. -/
structure Rivet where
  deltaR : FourMomentum → FourMomentum → ℚ
  add : FourMomentum → FourMomentum → FourMomentum
  neg : FourMomentum → FourMomentum
  hasBottom : Int → Bool
  round : ℚ → ℚ

/-- A particle: PDG code, electric charge and momentum. -/
structure Particle where
  pid : Int
  charge : ℚ
  momentum : FourMomentum
  deriving DecidableEq, Repr

/-- A dressed lepton: the dressed particle and its bare constituent lepton. -/
structure DressedLepton where
  particle : Particle
  constituentLepton : Particle
  deriving DecidableEq, Repr

/-- A jet, read only through its momentum. -/
structure Jet where
  momentum : FourMomentum
  deriving DecidableEq, Repr

/-- An unstable particle together with the PDG codes of the outgoing particles of
its end vertex (its direct decay products). -/
structure UnstableParticle where
  particle : Particle
  decayPids : List Int
  deriving DecidableEq, Repr

/-- The projections of one event, as the analysis reads them. -/
structure Event where
  weight : ℚ
  /-- `VetoedFinalState "vfs"`: visible particles. -/
  vfs_particles : List Particle
  /-- `MissingMomentum "MET"`: `visibleMomentum()`. -/
  visibleMomentum : FourMomentum
  muon_dressed : List DressedLepton
  electron_dressed : List DressedLepton
  /-- `FastJets "jet"`: the result of `jetsByPt(jet_ptmin)`. -/
  jetsByPt : List Jet
  /-- `UnstableFinalState "UFS"`: `particles()`. -/
  ufs : List UnstableParticle
  /-- `LeadingParticlesFinalState "neutrinos"`: `particlesByPt()`. -/
  neutrinos : List Particle

/-- The three booked histograms. -/
inductive Histo where
  | cuts_WBF
  | njets_before_WBF
  | njets_after_WBF
  deriving DecidableEq, Repr

/-- One call `h->fill(x, weight)`. -/
structure Fill where
  histo : Histo
  x : ℚ
  weight : ℚ
  deriving DecidableEq, Repr

/-- The data members of class `WWbb` that `analyze` reads or writes, and the log of
histogram fills in call order.  The WBF thresholds are members that the constructor
does not set. -/
structure State where
  MET_4v : FourMomentum
  lepton_m : Particle
  lepton_p : Particle
  nu_m : Particle
  nu_p : Particle
  m_ll : ℚ
  m_trans_llMET : ℚ
  MET : ℚ
  alljets : List Jet
  lightjets : List Jet
  bjets_central : List Jet
  bjets_forward : List Jet
  bjet_p : Jet
  bjet_m : Jet
  massJJ_min_WBF : ℚ
  deltayJJ_min_WBF : ℚ
  m_trans_llMET_min_WBF : ℚ
  m_ll_min_WBF : ℚ
  ptlep1_min_WBF : ℚ
  ptlep2_min_WBF : ℚ
  MET_min_WBF : ℚ
  fills : List Fill

/-! ## Constants set by the constructor (`GeV = 1`) -/

def lepton_etamax : ℚ := 2.4
def lepton_ptmin : ℚ := 25
def jet_etamax : ℚ := 4.5
def jet_ptmin : ℚ := 25
def lepton_jet_isolation_dR : ℚ := 0.4
def lepton_iso_dR : ℚ := 0.4
def lepton_iso_frac : ℚ := 0.1
def bhad_ptmin : ℚ := 5

/-! ## Lepton isolation (lines 182-200) -/

/-- Inner loop over `vfs_particles`: one update of `ptcone`, by a double-precision
addition. -/
def ptconeStep (R : Rivet) (l1 : DressedLepton) (ptcone : ℚ) (p : Particle) : ℚ :=
  let deltaRlpart := R.deltaR l1.particle.momentum p.momentum
  if deltaRlpart < lepton_iso_dR then R.round (ptcone + p.momentum.pT) else ptcone

/-- The cone sum of a lepton after the loop over `vfs_particles`. -/
def ptcone (R : Rivet) (vfs_particles : List Particle) (l1 : DressedLepton) : ℚ :=
  vfs_particles.foldl (ptconeStep R l1) 0

/-- Body of the loop over the dressed leptons: `push_back` when isolated.  The bound
`(1.+lepton_iso_frac)*l1.pT()` is a double-precision sum of `1.` and the member
`lepton_iso_frac` (the literal `0.1` as a `double`), then a double-precision product. -/
def isoStep (R : Rivet) (vfs_particles : List Particle)
    (isolated : List DressedLepton) (l1 : DressedLepton) : List DressedLepton :=
  if ptcone R vfs_particles l1
      < R.round (R.round (1 + R.round lepton_iso_frac) * l1.particle.momentum.pT) then
    isolated ++ [l1]
  else isolated

/-- The isolated leptons of a dressed-lepton list (`muon_isolated`, `electron_isolated`). -/
def isolatedLeptons (R : Rivet) (vfs_particles : List Particle)
    (dressed : List DressedLepton) : List DressedLepton :=
  dressed.foldl (isoStep R vfs_particles) []

/-! ## Jets and overlap removal (lines 205-217) -/

/-- The member `Jet::absrap()`. -/
def absrap (j : Jet) : ℚ := |j.momentum.rapidity|

/-- One iteration of a lepton loop inside the jet loop: update of `deltaRcontrol`. -/
def overlapStep (R : Rivet) (j : Jet) (deltaRcontrol : Bool) (fl : DressedLepton) : Bool :=
  let deltaRjets := R.deltaR fl.constituentLepton.momentum j.momentum
  if deltaRjets ≤ lepton_jet_isolation_dR then false else deltaRcontrol

/-- The value of `deltaRcontrol` after the muon loop and the electron loop. -/
def deltaRcontrol (R : Rivet) (muon_isolated electron_isolated : List DressedLepton)
    (j : Jet) : Bool :=
  electron_isolated.foldl (overlapStep R j) (muon_isolated.foldl (overlapStep R j) true)

/-- Body of the jet loop. -/
def jetStep (R : Rivet) (muon_isolated electron_isolated : List DressedLepton)
    (alljets : List Jet) (j : Jet) : List Jet :=
  if absrap j > jet_etamax then alljets
  else if deltaRcontrol R muon_isolated electron_isolated j then alljets ++ [j]
  else alljets

/-- The list `alljets` after the jet loop, from the cleared list. -/
def selectJets (R : Rivet) (muon_isolated electron_isolated : List DressedLepton)
    (jets : List Jet) : List Jet :=
  jets.foldl (jetStep R muon_isolated electron_isolated) []

/-! ## B-hadrons (lines 222-249) -/

/-- The loop over the decay products, with its `break`: the value of `good_B` on exit. -/
def goodBLoop (R : Rivet) : List Int → Bool → Bool
  | [], good_B => good_B
  | pdg :: rest, _ => if !(R.hasBottom pdg) then goodBLoop R rest true else false

/-- Body of the loop over the unstable particles. -/
def bhadronStep (R : Rivet) (BHadrons : List Particle) (p : UnstableParticle) :
    List Particle :=
  if R.hasBottom p.particle.pid then
    if goodBLoop R p.decayPids false then BHadrons ++ [p.particle] else BHadrons
  else BHadrons

/-- The list `BHadrons`. -/
def selectBHadrons (R : Rivet) (ufs : List UnstableParticle) : List Particle :=
  ufs.foldl (bhadronStep R) []

/-! ## Jet b-labelling (lines 255-276) -/

/-- Local variables of the scan over `BHadrons` for one jet. -/
structure Scan where
  dRmin : ℚ
  bindex : Int
  bfound : Int
  deriving DecidableEq, Repr

/-- Body of the loop over `BHadrons` for jet `j`. -/
def scanStep (R : Rivet) (bjets_central_index bjets_forward_index : List Int) (j : Jet)
    (sc : Scan) (b : Particle) : Scan :=
  let notusedbhad := true
  let notusedbhad := if sc.bindex ∈ bjets_central_index then false else notusedbhad
  let notusedbhad := if sc.bindex ∈ bjets_forward_index then false else notusedbhad
  let sc1 :=
    if notusedbhad then
      let dR := R.deltaR b.momentum j.momentum
      if dR < sc.dRmin then { sc with dRmin := dR, bfound := sc.bindex } else sc
    else sc
  { sc1 with bindex := sc1.bindex + 1 }

/-- The scan of all b-hadrons for jet `j`, from `dRmin=1000`, `bindex=0`, `bfound=-1`. -/
def scanBHadrons (R : Rivet) (bjets_central_index bjets_forward_index : List Int)
    (BHadrons : List Particle) (j : Jet) : Scan :=
  BHadrons.foldl (scanStep R bjets_central_index bjets_forward_index j) ⟨1000, 0, -1⟩

/-- The lists written by the labelling loop. -/
structure Labels where
  lightjets : List Jet
  bjets_central : List Jet
  bjets_forward : List Jet
  bjets_central_index : List Int
  bjets_forward_index : List Int
  deriving DecidableEq, Repr

/-- The cleared lists before the labelling loop. -/
def Labels.empty : Labels := ⟨[], [], [], [], []⟩

/-- Body of the loop over `alljets`: the scan, then the three `if` statements. -/
def labelStep (R : Rivet) (BHadrons : List Particle) (st : Labels) (j : Jet) : Labels :=
  let sc := scanBHadrons R st.bjets_central_index st.bjets_forward_index BHadrons j
  let st1 :=
    if sc.dRmin < 0.4 ∧ absrap j < 2.4 then
      { st with bjets_central := st.bjets_central ++ [j],
                bjets_central_index := st.bjets_central_index ++ [sc.bfound] }
    else st
  let st2 :=
    if sc.dRmin < 0.4 ∧ absrap j ≥ 2.4 then
      { st1 with bjets_forward := st1.bjets_forward ++ [j],
                 bjets_forward_index := st1.bjets_forward_index ++ [sc.bfound] }
    else st1
  if sc.dRmin ≥ 0.4 then { st2 with lightjets := st2.lightjets ++ [j] } else st2

/-- The labelling loop over `alljets`. -/
def labelJets (R : Rivet) (BHadrons : List Particle) (alljets : List Jet) : Labels :=
  alljets.foldl (labelStep R BHadrons) Labels.empty

/-! ## Channel analyses (lines 338-402) -/

def analyze_WW (s : State) (_event : Event) : State := s

def analyze_HH (s : State) (_event : Event) : State := s

def analyze_BL (s : State) (_event : Event) : State := s

/-- Append one fill to the log. -/
def State.fill (s : State) (h : Histo) (x weight : ℚ) : State :=
  { s with fills := s.fills ++ [⟨h, x, weight⟩] }

/-- The WBF cut flow. -/
def analyze_WBF (R : Rivet) (s : State) (event : Event) : State :=
  let weight := event.weight
  let s := s.fill Histo.njets_before_WBF s.alljets.length weight
  match s.alljets with
  | j0 :: j1 :: _ =>
    let y0 := j0.momentum.eta
    let y1 := j1.momentum.eta
    let massJJ := (R.add j0.momentum j1.momentum).mass
    if y0 * y1 > 0 ∨ |y0 - y1| < s.deltayJJ_min_WBF ∨ massJJ < s.massJJ_min_WBF then s
    else
      let s := s.fill Histo.cuts_WBF 2 weight
      if s.m_trans_llMET < s.m_trans_llMET_min_WBF ∨ s.m_ll < s.m_ll_min_WBF then s
      else
        let ptm := s.lepton_m.momentum.pT
        let ptp := s.lepton_p.momentum.pT
        let ptlep1 := if ptm > ptp then ptm else ptp
        let ptlep2 := if ptm > ptp then ptp else ptm
        if ptlep1 < s.ptlep1_min_WBF ∨ ptlep2 < s.ptlep2_min_WBF ∨ s.MET < s.MET_min_WBF then s
        else
          let s := s.fill Histo.cuts_WBF 3 weight
          s.fill Histo.njets_after_WBF s.alljets.length weight
  | _ => s

/-! ## Role assignment (lines 285-312) -/

/-- Element access `v[i]` with an `int` index: no value outside the vector. -/
def at? {α : Type} (v : List α) (i : Int) : Option α :=
  if i < 0 then none else v[i.toNat]?

/-- Lepton roles, by the sign of the electron charge. -/
def assignLeptons (s : State) (e m : DressedLepton) : State :=
  if e.particle.charge > 0 then
    { s with lepton_m := m.particle, lepton_p := e.particle }
  else
    { s with lepton_p := m.particle, lepton_m := e.particle }

/-- First neutrino loop: the body runs for the first element and breaks. -/
def assignNuP (s : State) (Neutrinos : List Particle) : State :=
  match Neutrinos with
  | inu :: _ => if inu.pid + s.lepton_p.pid = 1 then { s with nu_p := inu } else s
  | [] => s

/-- Second neutrino loop: the body runs for the first element and breaks. -/
def assignNuM (s : State) (Neutrinos : List Particle) : State :=
  match Neutrinos with
  | inu :: _ => if inu.pid + s.lepton_m.pid = -1 then { s with nu_m := inu } else s
  | [] => s

/-- First b-jet loop: the body runs for `ibjet = 0` and breaks.  The result is `none`
when an element access falls outside its vector. -/
def assignBjetM (s : State) (BHadrons : List Particle) (bjets_central_index : List Int) :
    Option State :=
  if 0 < s.bjets_central.length then do
    let i ← bjets_central_index[0]?
    let b ← at? BHadrons i
    if b.charge > 0 then
      let j ← s.bjets_central[0]?
      pure { s with bjet_m := j }
    else pure s
  else pure s

/-- Second b-jet loop: the body runs for `ibjet = 0` and breaks. -/
def assignBjetP (s : State) (BHadrons : List Particle) (bjets_central_index : List Int) :
    Option State :=
  if 0 < s.bjets_central.length then do
    let i ← bjets_central_index[0]?
    let b ← at? BHadrons i
    if b.charge < 0 then
      let j ← s.bjets_central[0]?
      pure { s with bjet_p := j }
    else pure s
  else pure s

/-! ## The per-event entry point (lines 144-328) -/

/-- The state after the object-building part of `analyze` (lines 145-276): cleared and
refilled jet lists, `MET_4v` and `MET`. -/
def buildObjects (R : Rivet) (s : State) (event : Event) (lab : Labels)
    (alljets : List Jet) : State :=
  { s with
    MET_4v := R.neg event.visibleMomentum
    MET := (R.neg event.visibleMomentum).pT
    alljets := alljets
    lightjets := lab.lightjets
    bjets_central := lab.bjets_central
    bjets_forward := lab.bjets_forward }

/-- The four channel analyses, in call order. -/
def runAnalyses (R : Rivet) (s : State) (event : Event) : State :=
  analyze_BL (analyze_HH (analyze_WBF R (analyze_WW s event) event) event) event

/-- One call of `analyze`.  `none` stands for an element access outside a vector. -/
def analyze (R : Rivet) (s : State) (event : Event) : Option State :=
  let muon_isolated := isolatedLeptons R event.vfs_particles event.muon_dressed
  let electron_isolated := isolatedLeptons R event.vfs_particles event.electron_dressed
  let alljets := selectJets R muon_isolated electron_isolated event.jetsByPt
  let BHadrons := selectBHadrons R event.ufs
  let lab := labelJets R BHadrons alljets
  let s := buildObjects R s event lab alljets
  match electron_isolated, muon_isolated with
  | [e], [m] =>
    if e.particle.charge * m.particle.charge ≠ -1 then some s
    else do
      let s := assignLeptons s e m
      let s := assignNuP s event.neutrinos
      let s := assignNuM s event.neutrinos
      let s ← assignBjetM s BHadrons lab.bjets_central_index
      let s ← assignBjetP s BHadrons lab.bjets_central_index
      pure (runAnalyses R s event)
  | _, _ => some s

/-! ## Reference notions used to state the properties -/

/-- The cone sum in the words of the specification: the sum of `pT` over the visible
particles within `lepton_iso_dR` (strict) of the lepton, added in list order in double
precision. -/
def coneSum (R : Rivet) (vfs_particles : List Particle) (l : DressedLepton) : ℚ :=
  ((vfs_particles.filter
      (fun p => decide (R.deltaR l.particle.momentum p.momentum < lepton_iso_dR))).map
    (fun p => p.momentum.pT)).foldl (fun acc x => R.round (acc + x)) 0

/-- The isolation bound of a lepton as the code computes it: the double-precision value
of `(1.+lepton_iso_frac)*pT`. -/
def isoBound (R : Rivet) (l : DressedLepton) : ℚ :=
  R.round (R.round (1 + R.round lepton_iso_frac) * l.particle.momentum.pT)

/-- The label a jet receives in the labelling loop. -/
inductive JetLabel where
  | light
  | central
  | forward
  deriving DecidableEq, Repr

/-- The jets of `alljets`, in order, at the positions whose label in `labels` is `l`. -/
def jetsLabelled (l : JetLabel) (alljets : List Jet) (labels : List JetLabel) : List Jet :=
  ((alljets.zip labels).filter (fun jl => decide (jl.2 = l))).map Prod.fst

/-- No lepton of the list has its bare constituent lepton within
`lepton_jet_isolation_dR` (inclusive) of the jet. -/
def clearOfLeptons (R : Rivet) (leptons : List DressedLepton) (j : Jet) : Prop :=
  ∀ fl ∈ leptons,
    ¬ (R.deltaR fl.constituentLepton.momentum j.momentum ≤ lepton_jet_isolation_dR)

instance (R : Rivet) (leptons : List DressedLepton) (j : Jet) :
    Decidable (clearOfLeptons R leptons j) := by
  unfold clearOfLeptons
  infer_instance

/-- The jets that survive, in the words of the specification: inside the rapidity
bound and clear of every isolated muon and electron. -/
def jetKept (R : Rivet) (muon_isolated electron_isolated : List DressedLepton) (j : Jet) :
    Prop :=
  absrap j ≤ jet_etamax ∧ clearOfLeptons R muon_isolated j ∧
    clearOfLeptons R electron_isolated j

instance (R : Rivet) (muon_isolated electron_isolated : List DressedLepton) (j : Jet) :
    Decidable (jetKept R muon_isolated electron_isolated j) := by
  unfold jetKept
  infer_instance

/-- Jets in order of non-increasing `pT`. -/
def SortedByPt (jets : List Jet) : Prop :=
  jets.Pairwise (fun a b => a.momentum.pT ≥ b.momentum.pT)

/-- Preselection in the words of the specification: exactly one isolated electron,
exactly one isolated muon, and the product of their charges is `-1`. -/
def Preselected (R : Rivet) (event : Event) : Prop :=
  ∃ e m, isolatedLeptons R event.vfs_particles event.electron_dressed = [e] ∧
    isolatedLeptons R event.vfs_particles event.muon_dressed = [m] ∧
    e.particle.charge * m.particle.charge = -1

/-- The list `alljets` of an event. -/
def eventAlljets (R : Rivet) (event : Event) : List Jet :=
  selectJets R (isolatedLeptons R event.vfs_particles event.muon_dressed)
    (isolatedLeptons R event.vfs_particles event.electron_dressed) event.jetsByPt

/-- The lists of the labelling loop of an event. -/
def eventLabels (R : Rivet) (event : Event) : Labels :=
  labelJets R (selectBHadrons R event.ufs) (eventAlljets R event)

/-- The fills made by one call of `analyze_WBF`, in call order: the fill log after the
call without the log before it. -/
def wbfFills (R : Rivet) (s : State) (event : Event) : List Fill :=
  (analyze_WBF R s event).fills.drop s.fills.length

/-- WBF cut 2 in the words of the specification: at least two jets, the two leading
jets in opposite pseudorapidity hemispheres (`eta0 * eta1 <= 0`), separated by at least
`deltayJJ_min_WBF`, with invariant mass at least `massJJ_min_WBF`. -/
def PassCut2 (R : Rivet) (s : State) : Prop :=
  ∃ j0 j1 rest, s.alljets = j0 :: j1 :: rest ∧
    j0.momentum.eta * j1.momentum.eta ≤ 0 ∧
    s.deltayJJ_min_WBF ≤ |j0.momentum.eta - j1.momentum.eta| ∧
    s.massJJ_min_WBF ≤ (R.add j0.momentum j1.momentum).mass

/-- WBF cut 3 in the words of the specification: transverse mass, di-lepton mass,
leading and sub-leading lepton `pT` and `MET` at or above their thresholds. -/
def PassCut3 (s : State) : Prop :=
  s.m_trans_llMET_min_WBF ≤ s.m_trans_llMET ∧ s.m_ll_min_WBF ≤ s.m_ll ∧
    s.ptlep1_min_WBF ≤ max s.lepton_m.momentum.pT s.lepton_p.momentum.pT ∧
    s.ptlep2_min_WBF ≤ min s.lepton_m.momentum.pT s.lepton_p.momentum.pT ∧
    s.MET_min_WBF ≤ s.MET

/-- The state with the `pT` of `lepton_m` and of `lepton_p` swapped. -/
def swapLeptonPt (s : State) : State :=
  { s with
    lepton_m := { s.lepton_m with
      momentum := { s.lepton_m.momentum with pT := s.lepton_p.momentum.pT } }
    lepton_p := { s.lepton_p with
      momentum := { s.lepton_p.momentum with pT := s.lepton_m.momentum.pT } } }

/-- The b-hadron filter as the code applies it: a bottom-flavoured PDG code, at least
one direct decay product, and no bottom-flavoured direct decay product. -/
def keptAsBHadron (R : Rivet) (p : UnstableParticle) : Bool :=
  R.hasBottom p.particle.pid && !p.decayPids.isEmpty &&
    p.decayPids.all (fun pdg => !R.hasBottom pdg)

/-- The value of a neutrino role after its loop: the leading neutrino, when there is
one and its PDG code plus that of the lepton is `target`; the prior value otherwise. -/
def neutrinoRole (prior : Particle) (N : List Particle) (leptonPid target : Int) : Particle :=
  match N with
  | inu :: _ => if inu.pid + leptonPid = target then inu else prior
  | [] => prior

/-- The first central-b jet together with the charge of the b-hadron matched to it. -/
def firstCentralB (bjets_central : List Jet) (bjets_central_index : List Int)
    (BHadrons : List Particle) : Option (Jet × ℚ) :=
  match bjets_central, bjets_central_index with
  | j0 :: _, i0 :: _ => (at? BHadrons i0).map (fun b => (j0, b.charge))
  | _, _ => none

/-- The value of `bjet_m` after its loop, from the prior value, the first central-b jet
and the charge of its matched b-hadron. -/
def bjetMinusRole (prior : Jet) (first : Option (Jet × ℚ)) : Jet :=
  match first with
  | some (j0, q) => if q > 0 then j0 else prior
  | none => prior

/-- The value of `bjet_p` after its loop, from the prior value, the first central-b jet
and the charge of its matched b-hadron. -/
def bjetPlusRole (prior : Jet) (first : Option (Jet × ℚ)) : Jet :=
  match first with
  | some (j0, q) => if q < 0 then j0 else prior
  | none => prior

/-- The first central-b jet of an event with the charge of its matched b-hadron. -/
def eventFirstCentralB (R : Rivet) (event : Event) : Option (Jet × ℚ) :=
  firstCentralB (eventLabels R event).bjets_central (eventLabels R event).bjets_central_index
    (selectBHadrons R event.ufs)

/-- The state after the role assignment of an event whose isolated electron is `e` and
whose isolated muon is `m`, as a function of the prior state and the event. -/
def roleState (R : Rivet) (s : State) (event : Event) (e m : DressedLepton) : State :=
  { buildObjects R s event (eventLabels R event) (eventAlljets R event) with
    lepton_m := if e.particle.charge > 0 then m.particle else e.particle
    lepton_p := if e.particle.charge > 0 then e.particle else m.particle
    nu_p := neutrinoRole s.nu_p event.neutrinos
      (if e.particle.charge > 0 then e.particle else m.particle).pid 1
    nu_m := neutrinoRole s.nu_m event.neutrinos
      (if e.particle.charge > 0 then m.particle else e.particle).pid (-1)
    bjet_m := bjetMinusRole s.bjet_m (eventFirstCentralB R event)
    bjet_p := bjetPlusRole s.bjet_p (eventFirstCentralB R event) }

/-! ## Worked inputs

Momenta of the worked inputs have azimuth 0, so their `deltaR` is the absolute
rapidity difference. -/

/-- A momentum at azimuth 0 with the given `pT` and rapidity (`eta` set to the
rapidity, `mass` to 0). -/
def mom (pT y : ℚ) : FourMomentum := ⟨pT, y, y, 0, 0⟩

/-- Rounding of a rational to the nearest integer, a tie to the even one. -/
def roundHalfEven (m : ℚ) : Int :=
  let f := ⌊m⌋
  if m - f < 1 / 2 then f
  else if 1 / 2 < m - f then f + 1
  else if f % 2 = 0 then f else f + 1

/-- Rounding of a rational to the nearest `double` (binary64: 53-bit significand, a
tie to the even significand), for values in the normal range. -/
def roundToDouble (q : ℚ) : ℚ :=
  if q = 0 then 0
  else
    let e : Int := Int.log 2 |q|
    let ulp : ℚ := (2 : ℚ) ^ (e - 52)
    (roundHalfEven (q / ulp) : ℚ) * ulp

/-- Framework functions for the worked inputs: `deltaR` as the sum of the rapidity
and azimuth separations (exact when one of the two vanishes), bottom flavour for the
hadrons `B0`, `B+`, `Bs`, `Lambda_b` and their antiparticles, rounding to the nearest
`double`. -/
def exampleRivet : Rivet where
  round := roundToDouble
  deltaR a b := |a.rapidity - b.rapidity| + |a.phi - b.phi|
  add a b := ⟨a.pT + b.pT, 0, 0, 0, a.mass + b.mass⟩
  neg a := { a with eta := -a.eta }
  hasBottom pid := decide (pid.natAbs ∈ [511, 521, 531, 5122])

/-- A dressed muon of `pT = 30` at rapidity 0 (bare lepton of the same momentum). -/
def muon30 : DressedLepton := ⟨⟨13, -1, mom 30 0⟩, ⟨13, -1, mom 30 0⟩⟩

/-- Visible particles around `muon30`: the muon itself and a collinear photon of
`pT = 3`; the cone sum is 33, the isolation bound of `muon30`. -/
def vfsBoundary : List Particle := [⟨13, -1, mom 30 0⟩, ⟨22, 0, mom 3 0⟩]

/-- Two b-hadrons: `B1` (index 0) at rapidity 0.5 and `B2` (index 1) at rapidity 0.1. -/
def hadronsB1B2 : List Particle := [⟨521, 1, mom 20 0.5⟩, ⟨-521, -1, mom 20 0.1⟩]

/-- The jet `J1`: `pT = 100` at rapidity 0, at distance 0.5 of `B1` and 0.1 of `B2`. -/
def jetJ1 : Jet := ⟨mom 100 0⟩

/-- The jet `J2`: `pT = 50` at rapidity 0.2, at distance 0.3 of `B1` and 0.1 of `B2`. -/
def jetJ2 : Jet := ⟨mom 50 0.2⟩

/-- A dressed positron of `pT = 30` at rapidity 1. -/
def positron30 : DressedLepton := ⟨⟨-11, 1, mom 30 1⟩, ⟨-11, 1, mom 30 1⟩⟩

/-- A dressed muon of `pT = 40` at rapidity -1. -/
def muon40 : DressedLepton := ⟨⟨13, -1, mom 40 (-1)⟩, ⟨13, -1, mom 40 (-1)⟩⟩

/-- An event with one isolated positron and one isolated muon (the visible particles
are the two leptons, at distance 2 of each other), no jet, no unstable particle; the
leading neutrino is a muon antineutrino, the second an electron neutrino. -/
def eventEMu : Event where
  weight := 1
  vfs_particles := [positron30.particle, muon40.particle]
  visibleMomentum := mom 45 0
  muon_dressed := [muon40]
  electron_dressed := [positron30]
  jetsByPt := []
  ufs := []
  neutrinos := [⟨-14, 0, mom 25 0⟩, ⟨12, 0, mom 20 0⟩]

/-- A dressed antimuon of `pT = 40` at rapidity -1. -/
def antimuon40 : DressedLepton := ⟨⟨-13, 1, mom 40 (-1)⟩, ⟨-13, 1, mom 40 (-1)⟩⟩

/-- The event `eventEMu` with the muon replaced by an antimuon: one isolated positron
and one isolated antimuon, of the same sign. -/
def eventSameSign : Event :=
  { eventEMu with
    vfs_particles := [positron30.particle, antimuon40.particle]
    muon_dressed := [antimuon40] }

/-- An event without any particle. -/
def eventEmpty : Event where
  weight := 1
  vfs_particles := []
  visibleMomentum := mom 0 0
  muon_dressed := []
  electron_dressed := []
  jetsByPt := []
  ufs := []
  neutrinos := []

/-- A prior state of the analysis whose per-event members all carry the value `x`. -/
def stateOf (x : ℚ) : State where
  MET_4v := mom x 0
  lepton_m := ⟨0, x, mom x 0⟩
  lepton_p := ⟨0, x, mom x 0⟩
  nu_m := ⟨0, x, mom x 0⟩
  nu_p := ⟨0, x, mom x 0⟩
  m_ll := x
  m_trans_llMET := x
  MET := x
  alljets := []
  lightjets := []
  bjets_central := []
  bjets_forward := []
  bjet_p := ⟨mom x 0⟩
  bjet_m := ⟨mom x 0⟩
  massJJ_min_WBF := 500
  deltayJJ_min_WBF := 3
  m_trans_llMET_min_WBF := 100
  m_ll_min_WBF := 50
  ptlep1_min_WBF := 30
  ptlep2_min_WBF := 20
  MET_min_WBF := 40
  fills := []

/-- A state at the call of `analyze_WBF`, with the thresholds of `stateOf`: two jets of
pseudorapidity -2 and +2 (gap 4) and invariant mass 600 with `exampleRivet`, leptons of
`pT` 30 and 40, di-lepton mass 80, transverse mass 120, `MET` 60. -/
def stateWBF : State :=
  { stateOf 0 with
    alljets := [⟨⟨100, -2, -2, 0, 300⟩⟩, ⟨⟨80, 2, 2, 0, 300⟩⟩]
    lepton_m := ⟨11, -1, mom 30 1⟩
    lepton_p := ⟨-13, 1, mom 40 (-1)⟩
    m_ll := 80
    m_trans_llMET := 120
    MET := 60 }

/-- The state `stateWBF` with its leading jet only. -/
def stateWBFOneJet : State := { stateWBF with alljets := [⟨⟨100, -2, -2, 0, 300⟩⟩] }

/-- The state `stateWBF` with both jets at pseudorapidity +1. -/
def stateWBFSameSide : State :=
  { stateWBF with alljets := [⟨⟨100, 1, 1, 0, 300⟩⟩, ⟨⟨80, 1, 1, 1, 300⟩⟩] }

/-- A `B+` of `pT = 20` whose end vertex has no outgoing particle. -/
def bPlusNoDecay : UnstableParticle := ⟨⟨521, 1, mom 20 0⟩, []⟩

/-- A `B+` of `pT = 20` decaying to an anti-`D0` and a `pi+`. -/
def bPlusDecayed : UnstableParticle := ⟨⟨521, 1, mom 20 0⟩, [-421, 211]⟩

/-- A jet of `pT = 100` at rapidity 0. -/
def jetCentralA : Jet := ⟨mom 100 0⟩

/-- A jet of `pT = 60` at rapidity 0.5. -/
def jetCentralB : Jet := ⟨mom 60 0.5⟩

/-- A `B+` at rapidity 0.05, at distance 0.05 of `jetCentralA`, decaying to an
anti-`D0` and a `pi+`. -/
def bPlusNearA : UnstableParticle := ⟨⟨521, 1, mom 20 0.05⟩, [-421, 211]⟩

/-- A `B-` at rapidity 0.45, at distance 0.05 of `jetCentralB`, decaying to a `D0` and
a `pi-`. -/
def bMinusNearB : UnstableParticle := ⟨⟨-521, -1, mom 20 0.45⟩, [421, -211]⟩

/-- The event `eventEMu` with the two jets `jetCentralA`, `jetCentralB` and the two
b-hadrons `bPlusNearA`, `bMinusNearB`: both jets are central-b jets, the first matched
to the `B+` (index 0), the second to the `B-` (index 1). -/
def eventTwoBjets : Event :=
  { eventEMu with
    jetsByPt := [jetCentralA, jetCentralB]
    ufs := [bPlusNearA, bMinusNearB] }

/-- A dressed muon of `pT = 100` at rapidity 0. -/
def muon100 : DressedLepton := ⟨⟨13, -1, mom 100 0⟩, ⟨13, -1, mom 100 0⟩⟩

/-- Visible particles around `muon100`: the muon itself and a collinear photon of
`pT = 10`; the cone sum is 110, the exact product `(1 + 0.1) * 100`. -/
def vfsRounded : List Particle := [⟨13, -1, mom 100 0⟩, ⟨22, 0, mom 10 0⟩]

/-! ## Lepton isolation: proofs -/

theorem roundHalfEven_eq (m : ℚ) (n : Int)
    (h : |m - n| < 1 / 2 ∨ (|m - n| = 1 / 2 ∧ n % 2 = 0)) : roundHalfEven m = n := by
  unfold roundHalfEven
  simp only []
  by_cases hmn : (n : ℚ) ≤ m
  · have hf : ⌊m⌋ = n := by
      rw [Int.floor_eq_iff]
      refine ⟨hmn, ?_⟩
      rcases h with h | ⟨h, _⟩
      · have := (abs_lt.1 h).2
        linarith
      · have := (abs_le.1 (le_of_eq h)).2
        linarith
    rw [hf]
    rcases h with h | ⟨h, he⟩
    · have := (abs_lt.1 h).2
      rw [if_pos this]
    · rw [abs_of_nonneg (by linarith)] at h
      rw [if_neg (by rw [h]; exact lt_irrefl _), if_neg (by rw [h]; exact lt_irrefl _),
        if_pos he]
  · have hmn2 : m < n := not_le.1 hmn
    have hf : ⌊m⌋ = n - 1 := by
      rw [Int.floor_eq_iff]
      push_cast
      rcases h with h | ⟨h, _⟩
      · have := (abs_lt.1 h).1
        constructor <;> linarith
      · have := (abs_le.1 (le_of_eq h)).1
        constructor <;> linarith
    rw [hf]
    push_cast
    rcases h with h | ⟨h, he⟩
    · have := (abs_lt.1 h).1
      rw [if_neg (by linarith), if_pos (by linarith)]
      ring
    · rw [abs_of_neg (by linarith)] at h
      have hm : m - (↑n - 1) = 1 / 2 := by linarith
      rw [if_neg (by rw [hm]; exact lt_irrefl _), if_neg (by rw [hm]; exact lt_irrefl _)]
      have ho : ¬ (n - 1) % 2 = 0 := by omega
      rw [if_neg ho]
      ring

/-- The value of `roundToDouble` at a positive `q` with `2^(k+52) <= q < 2^(k+53)`: the
multiple `n * 2^k` of the unit in the last place nearest to `q`, the even `n` on a
tie. -/
theorem roundToDouble_eq (q : ℚ) (k n : Int) (hq0 : 0 < q)
    (h1 : (2 : ℚ) ^ (k + 52) ≤ q) (h2 : q < (2 : ℚ) ^ (k + 53))
    (h : |q / 2 ^ k - n| < 1 / 2 ∨ (|q / 2 ^ k - n| = 1 / 2 ∧ n % 2 = 0)) :
    roundToDouble q = n * 2 ^ k := by
  unfold roundToDouble
  rw [if_neg (ne_of_gt hq0)]
  simp only []
  have hlog : Int.log 2 |q| = k + 52 := by
    rw [abs_of_pos hq0]
    apply le_antisymm
    · have := (Int.lt_zpow_iff_log_lt (b := 2) (by norm_num) hq0 (x := k + 53)).1
        (by exact_mod_cast h2)
      omega
    · exact (Int.zpow_le_iff_le_log (b := 2) (by norm_num) hq0).1 (by exact_mod_cast h1)
  rw [hlog]
  have hk : k + 52 - 52 = k := by ring
  rw [hk, roundHalfEven_eq _ n h]

/-- The literal `0.1` as a `double`. -/
theorem round_iso_frac :
    roundToDouble lepton_iso_frac = 3602879701896397 / 36028797018963968 := by
  rw [roundToDouble_eq lepton_iso_frac (-56) 7205759403792794
    (by norm_num [lepton_iso_frac]) (by norm_num [lepton_iso_frac])
    (by norm_num [lepton_iso_frac])
    (by left; rw [abs_lt]; constructor <;> norm_num [lepton_iso_frac])]
  norm_num

/-- The `double` sum `1.+0.1`. -/
theorem round_one_frac :
    roundToDouble (1 + 3602879701896397 / 36028797018963968)
      = 2476979795053773 / 2251799813685248 := by
  rw [roundToDouble_eq _ (-52) 4953959590107546 (by norm_num) (by norm_num) (by norm_num)
    (by left; rw [abs_lt]; constructor <;> norm_num)]
  norm_num

/-- The `double` product `(1.+0.1)*30` is `33`. -/
theorem round_mul_30 : roundToDouble (2476979795053773 / 2251799813685248 * 30) = 33 := by
  rw [roundToDouble_eq _ (-47) 4644337115725824 (by norm_num) (by norm_num) (by norm_num)
    (by left; rw [abs_lt]; constructor <;> norm_num)]
  norm_num

/-- The `double` product `(1.+0.1)*40` is `44` (a tie, rounded to the even
significand). -/
theorem round_mul_40 : roundToDouble (2476979795053773 / 2251799813685248 * 40) = 44 := by
  rw [roundToDouble_eq _ (-47) 6192449487634432 (by norm_num) (by norm_num) (by norm_num)
    (by right; constructor <;> norm_num [abs_eq_max_neg, max_def])]
  norm_num

/-- The `double` product `(1.+0.1)*100` is `110.00000000000001...`, above `110`. -/
theorem round_mul_100 :
    roundToDouble (2476979795053773 / 2251799813685248 * 100)
      = 7740561859543041 / 70368744177664 := by
  rw [roundToDouble_eq _ (-46) 7740561859543041 (by norm_num) (by norm_num) (by norm_num)
    (by left; rw [abs_lt]; constructor <;> norm_num)]
  norm_num

theorem round_30 : roundToDouble 30 = 30 := by
  rw [roundToDouble_eq _ (-48) 8444249301319680 (by norm_num) (by norm_num) (by norm_num)
    (by left; rw [abs_lt]; constructor <;> norm_num)]
  norm_num

theorem round_33 : roundToDouble 33 = 33 := by
  rw [roundToDouble_eq _ (-47) 4644337115725824 (by norm_num) (by norm_num) (by norm_num)
    (by left; rw [abs_lt]; constructor <;> norm_num)]
  norm_num

theorem round_40 : roundToDouble 40 = 40 := by
  rw [roundToDouble_eq _ (-47) 5629499534213120 (by norm_num) (by norm_num) (by norm_num)
    (by left; rw [abs_lt]; constructor <;> norm_num)]
  norm_num

theorem round_100 : roundToDouble 100 = 100 := by
  rw [roundToDouble_eq _ (-46) 7036874417766400 (by norm_num) (by norm_num) (by norm_num)
    (by left; rw [abs_lt]; constructor <;> norm_num)]
  norm_num

theorem round_110 : roundToDouble 110 = 110 := by
  rw [roundToDouble_eq _ (-46) 7740561859543040 (by norm_num) (by norm_num) (by norm_num)
    (by left; rw [abs_lt]; constructor <;> norm_num)]
  norm_num

theorem exampleBound_30 (l : DressedLepton) (h : l.particle.momentum.pT = 30) :
    isoBound exampleRivet l = 33 := by
  unfold isoBound
  rw [h]
  show roundToDouble (roundToDouble (1 + roundToDouble lepton_iso_frac) * 30) = 33
  rw [round_iso_frac, round_one_frac, round_mul_30]

theorem exampleBound_40 (l : DressedLepton) (h : l.particle.momentum.pT = 40) :
    isoBound exampleRivet l = 44 := by
  unfold isoBound
  rw [h]
  show roundToDouble (roundToDouble (1 + roundToDouble lepton_iso_frac) * 40) = 44
  rw [round_iso_frac, round_one_frac, round_mul_40]

theorem exampleBound_100 (l : DressedLepton) (h : l.particle.momentum.pT = 100) :
    isoBound exampleRivet l = 7740561859543041 / 70368744177664 := by
  unfold isoBound
  rw [h]
  show roundToDouble (roundToDouble (1 + roundToDouble lepton_iso_frac) * 100) = _
  rw [round_iso_frac, round_one_frac, round_mul_100]

theorem ptcone_foldl_eq (R : Rivet) (l : DressedLepton) (vfs : List Particle) (acc : ℚ) :
    vfs.foldl (ptconeStep R l) acc
      = ((vfs.filter
          (fun p => decide (R.deltaR l.particle.momentum p.momentum < lepton_iso_dR))).map
        (fun p => p.momentum.pT)).foldl (fun a x => R.round (a + x)) acc := by
  induction vfs generalizing acc with
  | nil => rfl
  | cons p ps ih =>
    rw [List.foldl_cons, ih]
    unfold ptconeStep
    by_cases h : R.deltaR l.particle.momentum p.momentum < lepton_iso_dR
    · simp [List.filter_cons, h]
    · simp [List.filter_cons, h]

theorem ptcone_eq_coneSum (R : Rivet) (vfs : List Particle) (l : DressedLepton) :
    ptcone R vfs l = coneSum R vfs l := by
  unfold ptcone coneSum
  exact ptcone_foldl_eq R l vfs 0

theorem isolated_foldl_eq (R : Rivet) (vfs : List Particle) (dressed init : List DressedLepton) :
    dressed.foldl (isoStep R vfs) init
      = init ++ dressed.filter (fun l => decide (coneSum R vfs l < isoBound R l)) := by
  induction dressed generalizing init with
  | nil => simp
  | cons l ls ih =>
    rw [List.foldl_cons, ih]
    unfold isoStep
    rw [ptcone_eq_coneSum]
    by_cases h : coneSum R vfs l < isoBound R l
    · have h2 : coneSum R vfs l
          < R.round (R.round (1 + R.round lepton_iso_frac) * l.particle.momentum.pT) := h
      simp [List.filter_cons, h, h2]
    · have h2 : ¬ coneSum R vfs l
          < R.round (R.round (1 + R.round lepton_iso_frac) * l.particle.momentum.pT) := h
      simp [List.filter_cons, h, h2]

theorem isolatedLeptons_eq_filter (R : Rivet) (vfs : List Particle)
    (dressed : List DressedLepton) :
    isolatedLeptons R vfs dressed
      = dressed.filter (fun l => decide (coneSum R vfs l < isoBound R l)) := by
  unfold isolatedLeptons
  rw [isolated_foldl_eq, List.nil_append]

theorem mem_isolatedLeptons (R : Rivet) (vfs : List Particle) (dressed : List DressedLepton)
    (l : DressedLepton) :
    l ∈ isolatedLeptons R vfs dressed ↔ l ∈ dressed ∧ coneSum R vfs l < isoBound R l := by
  rw [isolatedLeptons_eq_filter, List.mem_filter]
  simp

theorem isolatedLeptons_singleton (R : Rivet) (vfs : List Particle) (l : DressedLepton) :
    isolatedLeptons R vfs [l] = if coneSum R vfs l < isoBound R l then [l] else [] := by
  rw [isolatedLeptons_eq_filter]
  by_cases h : coneSum R vfs l < isoBound R l
  · simp [List.filter_cons, h]
  · simp [List.filter_cons, h]

theorem coneSum_muon100 : coneSum exampleRivet vfsRounded muon100 = 110 := by
  simp [coneSum, exampleRivet, vfsRounded, muon100, mom, lepton_iso_dR]
  norm_num [round_100, round_110]

theorem coneSum_muon30 : coneSum exampleRivet vfsBoundary muon30 = 33 := by
  simp [coneSum, exampleRivet, vfsBoundary, muon30, mom, lepton_iso_dR]
  norm_num [round_30, round_33]

theorem coneSum_muon30_alone :
    coneSum exampleRivet [⟨13, -1, mom 30 0⟩] muon30 = 30 := by
  simp [coneSum, exampleRivet, muon30, mom, lepton_iso_dR]
  norm_num [round_30]

/-- C4, as stated, fails in the arithmetic of the code.  The muon `muon100` among
`vfsRounded` has cone sum 110, equal to the exact product `(1 + 0.1) * 100`, so it is
not below that bound; the code compares with the double-precision product
`110.00000000000001...` and keeps the muon in the isolated list. -/
theorem isolation_bound_rounded :
    ptcone exampleRivet vfsRounded muon100 = 110 ∧
    (1 + lepton_iso_frac) * muon100.particle.momentum.pT = 110 ∧
    exampleRivet.round
        (exampleRivet.round (1 + exampleRivet.round lepton_iso_frac) *
          muon100.particle.momentum.pT)
      = 7740561859543041 / 70368744177664 ∧
    muon100 ∈ isolatedLeptons exampleRivet vfsRounded [muon100] := by
  have hb := exampleBound_100 muon100 rfl
  refine ⟨?_, ?_, hb, ?_⟩
  · rw [ptcone_eq_coneSum, coneSum_muon100]
  · norm_num [lepton_iso_frac, muon100, mom]
  · rw [isolatedLeptons_singleton, coneSum_muon100, hb, if_pos (by norm_num)]
    exact List.mem_singleton.2 rfl

/-- C4, amended: the cone sum computed by the loop is the sum of `pT`, added in list
order in double precision, over the visible particles strictly within `lepton_iso_dR`;
the isolated list is the dressed list filtered by `ptcone < B`, where `B` is the
double-precision value of `(1.+lepton_iso_frac)*pT` (so a lepton is in it iff it is a
dressed lepton passing the strict test, a lepton whose cone sum equals `B` is not in
it), and it is an order-preserving sublist of the dressed list. -/
theorem isolatedLeptons_spec (R : Rivet) (vfs : List Particle)
    (dressed : List DressedLepton) :
    (∀ l, ptcone R vfs l = coneSum R vfs l) ∧
    isolatedLeptons R vfs dressed
      = dressed.filter
          (fun l => decide (coneSum R vfs l
            < R.round (R.round (1 + R.round lepton_iso_frac) * l.particle.momentum.pT))) ∧
    (∀ l, l ∈ isolatedLeptons R vfs dressed ↔
      l ∈ dressed ∧ coneSum R vfs l
        < R.round (R.round (1 + R.round lepton_iso_frac) * l.particle.momentum.pT)) ∧
    (∀ l, coneSum R vfs l
        = R.round (R.round (1 + R.round lepton_iso_frac) * l.particle.momentum.pT) →
      l ∉ isolatedLeptons R vfs dressed) ∧
    (isolatedLeptons R vfs dressed).Sublist dressed := by
  refine ⟨ptcone_eq_coneSum R vfs, isolatedLeptons_eq_filter R vfs dressed,
    mem_isolatedLeptons R vfs dressed, ?_, ?_⟩
  · intro l hl hmem
    have h := ((mem_isolatedLeptons R vfs dressed l).1 hmem).2
    unfold isoBound at h
    exact absurd hl (ne_of_lt h)
  · rw [isolatedLeptons_eq_filter]
    exact List.filter_sublist _

/-- C5, as stated, fails at the boundary: `muon30` among `vfsBoundary` has cone sum 33,
which is less than or equal to its bound (33 as the exact product `(1 + 0.1) * 30` and
33 as the double-precision product), and it is not kept in the isolated list. -/
theorem isolation_at_bound_rejected :
    ptcone exampleRivet vfsBoundary muon30
        ≤ (1 + lepton_iso_frac) * muon30.particle.momentum.pT ∧
    ptcone exampleRivet vfsBoundary muon30
        ≤ exampleRivet.round
          (exampleRivet.round (1 + exampleRivet.round lepton_iso_frac) *
            muon30.particle.momentum.pT) ∧
    muon30 ∉ isolatedLeptons exampleRivet vfsBoundary [muon30] := by
  have hb : isoBound exampleRivet muon30 = 33 := exampleBound_30 muon30 rfl
  refine ⟨?_, ?_, ?_⟩
  · rw [ptcone_eq_coneSum, coneSum_muon30]
    norm_num [lepton_iso_frac, muon30, mom]
  · rw [ptcone_eq_coneSum, coneSum_muon30]
    exact le_of_eq hb.symm
  · rw [isolatedLeptons_singleton, coneSum_muon30, hb, if_neg (lt_irrefl _)]
    exact List.not_mem_nil _

/-- C5, amended: a dressed lepton whose cone sum is strictly below the bound the code
computes, the double-precision value of `(1.+lepton_iso_frac)*pT`, is kept in the
isolated list, and one whose cone sum is equal to or above that computed bound is
not. -/
theorem isolation_strict_threshold (R : Rivet) (vfs : List Particle)
    (dressed : List DressedLepton) (l : DressedLepton) (hl : l ∈ dressed) :
    (ptcone R vfs l
        < R.round (R.round (1 + R.round lepton_iso_frac) * l.particle.momentum.pT) →
      l ∈ isolatedLeptons R vfs dressed) ∧
    (R.round (R.round (1 + R.round lepton_iso_frac) * l.particle.momentum.pT)
        ≤ ptcone R vfs l →
      l ∉ isolatedLeptons R vfs dressed) := by
  rw [ptcone_eq_coneSum]
  constructor
  · intro h
    exact (mem_isolatedLeptons R vfs dressed l).2 ⟨hl, h⟩
  · intro h hmem
    have h2 := ((mem_isolatedLeptons R vfs dressed l).1 hmem).2
    unfold isoBound at h2
    exact absurd h2 (not_lt.2 h)

/-- Witness for C5 (amended): `muon30` alone in the event is kept; with the collinear
photon of `vfsBoundary` (cone sum 33, the computed bound) it is not; `muon100` among
`vfsRounded` (cone sum 110, below the computed bound `110.00000000000001...`) is
kept. -/
theorem isolation_strict_threshold_witness :
    muon30 ∈ [muon30] ∧
    muon30 ∈ isolatedLeptons exampleRivet [⟨13, -1, mom 30 0⟩] [muon30] ∧
    muon30 ∉ isolatedLeptons exampleRivet vfsBoundary [muon30] ∧
    muon100 ∈ isolatedLeptons exampleRivet vfsRounded [muon100] := by
  have hmem : muon30 ∈ [muon30] := List.mem_singleton.2 rfl
  have hmem2 : muon100 ∈ [muon100] := List.mem_singleton.2 rfl
  have hb : isoBound exampleRivet muon30 = 33 := exampleBound_30 muon30 rfl
  have hb2 := exampleBound_100 muon100 rfl
  unfold isoBound at hb hb2
  refine ⟨hmem, ?_, ?_, ?_⟩
  · refine (isolation_strict_threshold exampleRivet [⟨13, -1, mom 30 0⟩] [muon30] muon30
      hmem).1 ?_
    rw [ptcone_eq_coneSum, coneSum_muon30_alone, hb]
    norm_num
  · refine (isolation_strict_threshold exampleRivet vfsBoundary [muon30] muon30 hmem).2 ?_
    rw [ptcone_eq_coneSum, coneSum_muon30, hb]
  · refine (isolation_strict_threshold exampleRivet vfsRounded [muon100] muon100 hmem2).1 ?_
    rw [ptcone_eq_coneSum, coneSum_muon100, hb2]
    norm_num

/-! ## Jet b-labelling: each jet receives one label -/

theorem labelStep_cases (R : Rivet) (BHadrons : List Particle) (st : Labels) (j : Jet) :
    ((scanBHadrons R st.bjets_central_index st.bjets_forward_index BHadrons j).dRmin < 0.4 ∧
      absrap j < 2.4 ∧
      labelStep R BHadrons st j =
        { st with
          bjets_central := st.bjets_central ++ [j],
          bjets_central_index := st.bjets_central_index ++
            [(scanBHadrons R st.bjets_central_index st.bjets_forward_index BHadrons j).bfound] }) ∨
    ((scanBHadrons R st.bjets_central_index st.bjets_forward_index BHadrons j).dRmin < 0.4 ∧
      2.4 ≤ absrap j ∧
      labelStep R BHadrons st j =
        { st with
          bjets_forward := st.bjets_forward ++ [j],
          bjets_forward_index := st.bjets_forward_index ++
            [(scanBHadrons R st.bjets_central_index st.bjets_forward_index BHadrons j).bfound] }) ∨
    (0.4 ≤ (scanBHadrons R st.bjets_central_index st.bjets_forward_index BHadrons j).dRmin ∧
      labelStep R BHadrons st j = { st with lightjets := st.lightjets ++ [j] }) := by
  unfold labelStep
  by_cases h1 : (scanBHadrons R st.bjets_central_index st.bjets_forward_index BHadrons j).dRmin
      < 0.4
  · have h3 : ¬ (0.4 ≤
        (scanBHadrons R st.bjets_central_index st.bjets_forward_index BHadrons j).dRmin) :=
      not_le.2 h1
    by_cases h2 : absrap j < 2.4
    · have h4 : ¬ (2.4 ≤ absrap j) := not_le.2 h2
      left
      simp [h1, h2, h3, h4]
    · have h4 : 2.4 ≤ absrap j := not_lt.1 h2
      right; left
      simp [h1, h2, h3, h4]
  · have h3 : 0.4 ≤
        (scanBHadrons R st.bjets_central_index st.bjets_forward_index BHadrons j).dRmin :=
      not_lt.1 h1
    right; right
    simp [h1, h3]

theorem jetsLabelled_cons (l x : JetLabel) (j : Jet) (js : List Jet) (labels : List JetLabel) :
    jetsLabelled l (j :: js) (x :: labels)
      = (if x = l then [j] else []) ++ jetsLabelled l js labels := by
  unfold jetsLabelled
  by_cases h : x = l
  · simp [List.filter_cons, h]
  · simp [List.filter_cons, h]

theorem jetsLabelled_sublist (l : JetLabel) (js : List Jet) (labels : List JetLabel) :
    (jetsLabelled l js labels).Sublist js := by
  induction js generalizing labels with
  | nil => simp [jetsLabelled]
  | cons j js ih =>
    cases labels with
    | nil => simp [jetsLabelled]
    | cons x xs =>
      rw [jetsLabelled_cons]
      by_cases h : x = l
      · simpa [h] using ih xs
      · simpa [h] using (ih xs).cons j

theorem jetsLabelled_length (js : List Jet) (labels : List JetLabel)
    (h : labels.length = js.length) :
    (jetsLabelled JetLabel.light js labels).length
      + (jetsLabelled JetLabel.central js labels).length
      + (jetsLabelled JetLabel.forward js labels).length = js.length := by
  induction js generalizing labels with
  | nil => simp [jetsLabelled]
  | cons j js ih =>
    cases labels with
    | nil => simp at h
    | cons x xs =>
      have hx : xs.length = js.length := by simpa using h
      have := ih xs hx
      simp only [jetsLabelled_cons, List.length_append, List.length_cons]
      cases x <;> simp <;> omega

theorem labelJets_foldl_labels (R : Rivet) (BHadrons : List Particle) (js : List Jet)
    (st : Labels) :
    ∃ labels : List JetLabel, labels.length = js.length ∧
      (js.foldl (labelStep R BHadrons) st).lightjets
        = st.lightjets ++ jetsLabelled JetLabel.light js labels ∧
      (js.foldl (labelStep R BHadrons) st).bjets_central
        = st.bjets_central ++ jetsLabelled JetLabel.central js labels ∧
      (js.foldl (labelStep R BHadrons) st).bjets_forward
        = st.bjets_forward ++ jetsLabelled JetLabel.forward js labels := by
  induction js generalizing st with
  | nil => exact ⟨[], rfl, by simp [jetsLabelled]⟩
  | cons j js ih =>
    obtain ⟨labels, hlen, hl, hc, hf⟩ := ih (labelStep R BHadrons st j)
    rw [List.foldl_cons]
    rcases labelStep_cases R BHadrons st j with ⟨_, _, h⟩ | ⟨_, _, h⟩ | ⟨_, h⟩
    · refine ⟨JetLabel.central :: labels, by simp [hlen], ?_, ?_, ?_⟩
      · rw [hl, h, jetsLabelled_cons]; simp
      · rw [hc, h, jetsLabelled_cons]; simp
      · rw [hf, h, jetsLabelled_cons]; simp
    · refine ⟨JetLabel.forward :: labels, by simp [hlen], ?_, ?_, ?_⟩
      · rw [hl, h, jetsLabelled_cons]; simp
      · rw [hc, h, jetsLabelled_cons]; simp
      · rw [hf, h, jetsLabelled_cons]; simp
    · refine ⟨JetLabel.light :: labels, by simp [hlen], ?_, ?_, ?_⟩
      · rw [hl, h, jetsLabelled_cons]; simp
      · rw [hc, h, jetsLabelled_cons]; simp
      · rw [hf, h, jetsLabelled_cons]; simp

theorem labelJets_labels (R : Rivet) (BHadrons : List Particle) (alljets : List Jet) :
    ∃ labels : List JetLabel, labels.length = alljets.length ∧
      (labelJets R BHadrons alljets).lightjets = jetsLabelled JetLabel.light alljets labels ∧
      (labelJets R BHadrons alljets).bjets_central
        = jetsLabelled JetLabel.central alljets labels ∧
      (labelJets R BHadrons alljets).bjets_forward
        = jetsLabelled JetLabel.forward alljets labels := by
  obtain ⟨labels, hlen, hl, hc, hf⟩ :=
    labelJets_foldl_labels R BHadrons alljets Labels.empty
  exact ⟨labels, hlen, by simpa [labelJets, Labels.empty] using hl,
    by simpa [labelJets, Labels.empty] using hc, by simpa [labelJets, Labels.empty] using hf⟩

theorem labelJets_sublists (R : Rivet) (BHadrons : List Particle) (alljets : List Jet) :
    (labelJets R BHadrons alljets).lightjets.Sublist alljets ∧
    (labelJets R BHadrons alljets).bjets_central.Sublist alljets ∧
    (labelJets R BHadrons alljets).bjets_forward.Sublist alljets := by
  obtain ⟨labels, _, hl, hc, hf⟩ := labelJets_labels R BHadrons alljets
  rw [hl, hc, hf]
  exact ⟨jetsLabelled_sublist _ _ _, jetsLabelled_sublist _ _ _, jetsLabelled_sublist _ _ _⟩

/-- C1: after the labelling loop every position of `alljets` carries exactly one label
(there is one list of labels, as long as `alljets`, such that `lightjets`,
`bjets_central` and `bjets_forward` are the jets at the positions labelled light,
central and forward, in order); the three lists are order-preserving sublists of
`alljets` and their lengths add up to the length of `alljets`. -/
theorem labelJets_partition (R : Rivet) (BHadrons : List Particle) (alljets : List Jet) :
    (∃ labels : List JetLabel, labels.length = alljets.length ∧
      (labelJets R BHadrons alljets).lightjets = jetsLabelled JetLabel.light alljets labels ∧
      (labelJets R BHadrons alljets).bjets_central
        = jetsLabelled JetLabel.central alljets labels ∧
      (labelJets R BHadrons alljets).bjets_forward
        = jetsLabelled JetLabel.forward alljets labels) ∧
    (labelJets R BHadrons alljets).lightjets.Sublist alljets ∧
    (labelJets R BHadrons alljets).bjets_central.Sublist alljets ∧
    (labelJets R BHadrons alljets).bjets_forward.Sublist alljets ∧
    (labelJets R BHadrons alljets).lightjets.length
      + (labelJets R BHadrons alljets).bjets_central.length
      + (labelJets R BHadrons alljets).bjets_forward.length = alljets.length := by
  obtain ⟨labels, hlen, hl, hc, hf⟩ := labelJets_labels R BHadrons alljets
  obtain ⟨sl, sc, sf⟩ := labelJets_sublists R BHadrons alljets
  refine ⟨⟨labels, hlen, hl, hc, hf⟩, sl, sc, sf, ?_⟩
  rw [hl, hc, hf]
  exact jetsLabelled_length alljets labels hlen

/-! ## Jet b-labelling: the scan over the b-hadrons -/

theorem scanStep_eq (R : Rivet) (ci fi : List Int) (j : Jet) (sc : Scan) (b : Particle) :
    scanStep R ci fi j sc b =
      if sc.bindex ∉ ci ∧ sc.bindex ∉ fi ∧ R.deltaR b.momentum j.momentum < sc.dRmin then
        ⟨R.deltaR b.momentum j.momentum, sc.bindex + 1, sc.bindex⟩
      else ⟨sc.dRmin, sc.bindex + 1, sc.bfound⟩ := by
  unfold scanStep
  by_cases h1 : sc.bindex ∈ ci <;> by_cases h2 : sc.bindex ∈ fi <;>
    by_cases h3 : R.deltaR b.momentum j.momentum < sc.dRmin <;> simp [h1, h2, h3]

/-- The scan from a state at index `n` over the hadrons `l` (hadron `l[i]` has index
`n + i`): the final `dRmin` bounds the start value and the distance of every unused
hadron, and either nothing was found, or `bfound` is the first unused hadron whose
distance is the final `dRmin`, strictly below the start value. -/
theorem scan_foldl_spec (R : Rivet) (ci fi : List Int) (j : Jet) (l : List Particle)
    (n : Nat) (sc : Scan) (hn : sc.bindex = (n : Int)) :
    (l.foldl (scanStep R ci fi j) sc).dRmin ≤ sc.dRmin ∧
    (∀ i b, l[i]? = some b → ((n + i : Nat) : Int) ∉ ci → ((n + i : Nat) : Int) ∉ fi →
      (l.foldl (scanStep R ci fi j) sc).dRmin ≤ R.deltaR b.momentum j.momentum) ∧
    (((l.foldl (scanStep R ci fi j) sc).bfound = sc.bfound ∧
        (l.foldl (scanStep R ci fi j) sc).dRmin = sc.dRmin) ∨
      ∃ i b, l[i]? = some b ∧ ((n + i : Nat) : Int) ∉ ci ∧ ((n + i : Nat) : Int) ∉ fi ∧
        (l.foldl (scanStep R ci fi j) sc).bfound = ((n + i : Nat) : Int) ∧
        (l.foldl (scanStep R ci fi j) sc).dRmin = R.deltaR b.momentum j.momentum ∧
        R.deltaR b.momentum j.momentum < sc.dRmin ∧
        ∀ k c, l[k]? = some c → ((n + k : Nat) : Int) ∉ ci → ((n + k : Nat) : Int) ∉ fi →
          k < i → R.deltaR b.momentum j.momentum < R.deltaR c.momentum j.momentum) := by
  induction l generalizing n sc with
  | nil =>
    refine ⟨le_refl _, ?_, Or.inl ⟨rfl, rfl⟩⟩
    intro i b h
    simp at h
  | cons b0 l ih =>
    rw [List.foldl_cons]
    have hstep := scanStep_eq R ci fi j sc b0
    have hidx : (scanStep R ci fi j sc b0).bindex = ((n + 1 : Nat) : Int) := by
      rw [hstep]
      split <;> simp [hn]
    obtain ⟨ih1, ih2, ih3⟩ := ih (n + 1) (scanStep R ci fi j sc b0) hidx
    have hshift : ∀ k : Nat, ((n + 1 + k : Nat) : Int) = ((n + (k + 1) : Nat) : Int) := by
      intro k; congr 1; omega
    by_cases hc : sc.bindex ∉ ci ∧ sc.bindex ∉ fi ∧ R.deltaR b0.momentum j.momentum < sc.dRmin
    · -- the hadron `b0` becomes the current minimum
      have hs : scanStep R ci fi j sc b0
          = ⟨R.deltaR b0.momentum j.momentum, sc.bindex + 1, sc.bindex⟩ := by
        rw [hstep, if_pos hc]
      have hd : (scanStep R ci fi j sc b0).dRmin = R.deltaR b0.momentum j.momentum := by
        rw [hs]
      have hf : (scanStep R ci fi j sc b0).bfound = sc.bindex := by rw [hs]
      rw [hd] at ih1 ih3
      rw [hf] at ih3
      refine ⟨le_trans ih1 (le_of_lt hc.2.2), ?_, ?_⟩
      · intro i b hb hu1 hu2
        cases i with
        | zero =>
          simp at hb
          subst hb
          exact ih1
        | succ k =>
          simp at hb
          exact ih2 k b hb (by rw [hshift]; exact hu1) (by rw [hshift]; exact hu2)
      · right
        rcases ih3 with ⟨e1, e2⟩ | ⟨i, b, hb, hu1, hu2, e1, e2, e3, e4⟩
        · refine ⟨0, b0, by simp, ?_, ?_, ?_, e2, hc.2.2, ?_⟩
          · simpa [hn] using hc.1
          · simpa [hn] using hc.2.1
          · simpa [hn] using e1
          · intro k c _ _ _ hk
            exact absurd hk (Nat.not_lt_zero k)
        · refine ⟨i + 1, b, by simpa using hb, by rw [← hshift]; exact hu1,
            by rw [← hshift]; exact hu2, by rw [← hshift]; exact e1, e2,
            lt_trans e3 hc.2.2, ?_⟩
          intro k c hk hv1 hv2 hlt
          cases k with
          | zero =>
            simp at hk
            subst hk
            exact e3
          | succ k =>
            simp at hk
            exact e4 k c hk (by rw [hshift]; exact hv1) (by rw [hshift]; exact hv2)
              (by omega)
    · -- the hadron `b0` is used already or not closer
      have hs : scanStep R ci fi j sc b0 = ⟨sc.dRmin, sc.bindex + 1, sc.bfound⟩ := by
        rw [hstep, if_neg hc]
      have hd : (scanStep R ci fi j sc b0).dRmin = sc.dRmin := by rw [hs]
      have hf : (scanStep R ci fi j sc b0).bfound = sc.bfound := by rw [hs]
      rw [hd] at ih1 ih3
      rw [hf] at ih3
      have hb0 : ((n + 0 : Nat) : Int) ∉ ci → ((n + 0 : Nat) : Int) ∉ fi →
          sc.dRmin ≤ R.deltaR b0.momentum j.momentum := by
        intro hu1 hu2
        by_contra hlt
        apply hc
        refine ⟨?_, ?_, not_le.1 hlt⟩
        · simpa [hn] using hu1
        · simpa [hn] using hu2
      refine ⟨ih1, ?_, ?_⟩
      · intro i b hb hu1 hu2
        cases i with
        | zero =>
          simp at hb
          subst hb
          exact le_trans ih1 (hb0 hu1 hu2)
        | succ k =>
          simp at hb
          exact ih2 k b hb (by rw [hshift]; exact hu1) (by rw [hshift]; exact hu2)
      · rcases ih3 with ⟨e1, e2⟩ | ⟨i, b, hb, hu1, hu2, e1, e2, e3, e4⟩
        · exact Or.inl ⟨e1, e2⟩
        · right
          refine ⟨i + 1, b, by simpa using hb, by rw [← hshift]; exact hu1,
            by rw [← hshift]; exact hu2, by rw [← hshift]; exact e1, e2, e3, ?_⟩
          intro k c hk hv1 hv2 hlt
          cases k with
          | zero =>
            simp at hk
            subst hk
            exact lt_of_lt_of_le e3 (hb0 hv1 hv2)
          | succ k =>
            simp at hk
            exact e4 k c hk (by rw [hshift]; exact hv1) (by rw [hshift]; exact hv2)
              (by omega)

/-- The scan of one jet, from `dRmin = 1000`, `bindex = 0`, `bfound = -1`. -/
theorem scanBHadrons_spec (R : Rivet) (ci fi : List Int) (BHadrons : List Particle)
    (j : Jet) :
    (∀ (i : Nat) (b : Particle), BHadrons[i]? = some b → (i : Int) ∉ ci → (i : Int) ∉ fi →
      (scanBHadrons R ci fi BHadrons j).dRmin ≤ R.deltaR b.momentum j.momentum) ∧
    (((scanBHadrons R ci fi BHadrons j).bfound = -1 ∧
        (scanBHadrons R ci fi BHadrons j).dRmin = 1000) ∨
      ∃ (i : Nat) (b : Particle), BHadrons[i]? = some b ∧ (i : Int) ∉ ci ∧ (i : Int) ∉ fi ∧
        (scanBHadrons R ci fi BHadrons j).bfound = (i : Int) ∧
        (scanBHadrons R ci fi BHadrons j).dRmin = R.deltaR b.momentum j.momentum ∧
        ∀ (k : Nat) (c : Particle), BHadrons[k]? = some c → (k : Int) ∉ ci → (k : Int) ∉ fi →
          k < i → R.deltaR b.momentum j.momentum < R.deltaR c.momentum j.momentum) := by
  obtain ⟨_, h2, h3⟩ := scan_foldl_spec R ci fi j BHadrons 0 ⟨1000, 0, -1⟩ rfl
  unfold scanBHadrons
  constructor
  · intro i b hb hu1 hu2
    exact h2 i b hb (by simpa using hu1) (by simpa using hu2)
  · rcases h3 with h | ⟨i, b, hb, hu1, hu2, e1, e2, _, e4⟩
    · exact Or.inl h
    · right
      refine ⟨i, b, hb, by simpa using hu1, by simpa using hu2, by simpa using e1, e2, ?_⟩
      intro k c hk hv1 hv2 hlt
      exact e4 k c hk (by simpa using hv1) (by simpa using hv2) hlt

/-- A jet with `dRmin < 0.4` has found an unused b-hadron: `bfound` is a valid index
that is in neither index list. -/
theorem scanBHadrons_found (R : Rivet) (ci fi : List Int) (BHadrons : List Particle)
    (j : Jet) (h : (scanBHadrons R ci fi BHadrons j).dRmin < 0.4) :
    ∃ i : Nat, i < BHadrons.length ∧ (scanBHadrons R ci fi BHadrons j).bfound = (i : Int) ∧
      (i : Int) ∉ ci ∧ (i : Int) ∉ fi := by
  rcases (scanBHadrons_spec R ci fi BHadrons j).2 with ⟨_, e⟩ | ⟨i, b, hb, hu1, hu2, e1, _, _⟩
  · rw [e] at h
    norm_num at h
  · refine ⟨i, ?_, e1, hu1, hu2⟩
    by_contra hlt
    rw [List.getElem?_eq_none (not_lt.1 hlt)] at hb
    exact Option.noConfusion hb

/-! ## Jet b-labelling: the recorded indices -/

theorem nodup_append_snoc_left {l₁ l₂ : List Int} {k : Int} (h : (l₁ ++ l₂).Nodup)
    (h1 : k ∉ l₁) (h2 : k ∉ l₂) : ((l₁ ++ [k]) ++ l₂).Nodup := by
  have hp : ((l₁ ++ [k]) ++ l₂).Perm (k :: (l₁ ++ l₂)) := by
    rw [List.append_assoc]
    exact List.perm_middle
  rw [hp.nodup_iff]
  exact List.nodup_cons.2 ⟨by simp [h1, h2], h⟩

theorem nodup_append_snoc_right {l₁ l₂ : List Int} {k : Int} (h : (l₁ ++ l₂).Nodup)
    (h1 : k ∉ l₁) (h2 : k ∉ l₂) : (l₁ ++ (l₂ ++ [k])).Nodup := by
  have hp : (l₁ ++ (l₂ ++ [k])).Perm (k :: (l₁ ++ l₂)) := by
    rw [← List.append_assoc]
    exact List.perm_append_singleton k (l₁ ++ l₂)
  rw [hp.nodup_iff]
  exact List.nodup_cons.2 ⟨by simp [h1, h2], h⟩

/-- One iteration of the labelling loop keeps: no duplicate among the recorded indices,
one index per b-labelled jet, every index a position of `BHadrons`. -/
theorem labelStep_index_inv (R : Rivet) (BHadrons : List Particle) (st : Labels) (j : Jet)
    (hnd : (st.bjets_central_index ++ st.bjets_forward_index).Nodup)
    (hc : st.bjets_central_index.length = st.bjets_central.length)
    (hf : st.bjets_forward_index.length = st.bjets_forward.length)
    (hr : ∀ i ∈ st.bjets_central_index ++ st.bjets_forward_index,
      0 ≤ i ∧ i < (BHadrons.length : Int)) :
    ((labelStep R BHadrons st j).bjets_central_index
        ++ (labelStep R BHadrons st j).bjets_forward_index).Nodup ∧
    (labelStep R BHadrons st j).bjets_central_index.length
      = (labelStep R BHadrons st j).bjets_central.length ∧
    (labelStep R BHadrons st j).bjets_forward_index.length
      = (labelStep R BHadrons st j).bjets_forward.length ∧
    ∀ i ∈ (labelStep R BHadrons st j).bjets_central_index
        ++ (labelStep R BHadrons st j).bjets_forward_index,
      0 ≤ i ∧ i < (BHadrons.length : Int) := by
  rcases labelStep_cases R BHadrons st j with ⟨hd, _, h⟩ | ⟨hd, _, h⟩ | ⟨_, h⟩
  · obtain ⟨k, hk, e, u1, u2⟩ := scanBHadrons_found R _ _ BHadrons j hd
    rw [h, e]
    refine ⟨nodup_append_snoc_left hnd u1 u2, by simp [hc], hf, ?_⟩
    intro i hi
    simp only [List.mem_append, List.mem_singleton] at hi
    rcases hi with (hi | hi) | hi
    · exact hr i (List.mem_append.2 (Or.inl hi))
    · subst hi
      exact ⟨Int.ofNat_nonneg k, by exact_mod_cast hk⟩
    · exact hr i (List.mem_append.2 (Or.inr hi))
  · obtain ⟨k, hk, e, u1, u2⟩ := scanBHadrons_found R _ _ BHadrons j hd
    rw [h, e]
    refine ⟨nodup_append_snoc_right hnd u1 u2, hc, by simp [hf], ?_⟩
    intro i hi
    simp only [List.mem_append, List.mem_singleton] at hi
    rcases hi with hi | hi | hi
    · exact hr i (List.mem_append.2 (Or.inl hi))
    · exact hr i (List.mem_append.2 (Or.inr hi))
    · subst hi
      exact ⟨Int.ofNat_nonneg k, by exact_mod_cast hk⟩
  · rw [h]
    exact ⟨hnd, hc, hf, hr⟩

theorem labelJets_foldl_index_inv (R : Rivet) (BHadrons : List Particle) (js : List Jet)
    (st : Labels)
    (hnd : (st.bjets_central_index ++ st.bjets_forward_index).Nodup)
    (hc : st.bjets_central_index.length = st.bjets_central.length)
    (hf : st.bjets_forward_index.length = st.bjets_forward.length)
    (hr : ∀ i ∈ st.bjets_central_index ++ st.bjets_forward_index,
      0 ≤ i ∧ i < (BHadrons.length : Int)) :
    ((js.foldl (labelStep R BHadrons) st).bjets_central_index
        ++ (js.foldl (labelStep R BHadrons) st).bjets_forward_index).Nodup ∧
    (js.foldl (labelStep R BHadrons) st).bjets_central_index.length
      = (js.foldl (labelStep R BHadrons) st).bjets_central.length ∧
    (js.foldl (labelStep R BHadrons) st).bjets_forward_index.length
      = (js.foldl (labelStep R BHadrons) st).bjets_forward.length ∧
    ∀ i ∈ (js.foldl (labelStep R BHadrons) st).bjets_central_index
        ++ (js.foldl (labelStep R BHadrons) st).bjets_forward_index,
      0 ≤ i ∧ i < (BHadrons.length : Int) := by
  induction js generalizing st with
  | nil => exact ⟨hnd, hc, hf, hr⟩
  | cons j js ih =>
    rw [List.foldl_cons]
    obtain ⟨a, b, c, d⟩ := labelStep_index_inv R BHadrons st j hnd hc hf hr
    exact ih _ a b c d

theorem labelJets_index_inv (R : Rivet) (BHadrons : List Particle) (alljets : List Jet) :
    ((labelJets R BHadrons alljets).bjets_central_index
        ++ (labelJets R BHadrons alljets).bjets_forward_index).Nodup ∧
    (labelJets R BHadrons alljets).bjets_central_index.length
      = (labelJets R BHadrons alljets).bjets_central.length ∧
    (labelJets R BHadrons alljets).bjets_forward_index.length
      = (labelJets R BHadrons alljets).bjets_forward.length ∧
    ∀ i ∈ (labelJets R BHadrons alljets).bjets_central_index
        ++ (labelJets R BHadrons alljets).bjets_forward_index,
      0 ≤ i ∧ i < (BHadrons.length : Int) :=
  labelJets_foldl_index_inv R BHadrons alljets Labels.empty (by simp [Labels.empty])
    rfl rfl (by simp [Labels.empty])

/-- C2: the b-hadron indices recorded by the labelling loop are never reused: the
concatenation of `bjets_central_index` and `bjets_forward_index` has no duplicate, and
each b-labelled jet holds exactly one index (the index lists are as long as the jet
lists). -/
theorem labelJets_index_nodup (R : Rivet) (BHadrons : List Particle) (alljets : List Jet) :
    ((labelJets R BHadrons alljets).bjets_central_index
        ++ (labelJets R BHadrons alljets).bjets_forward_index).Nodup ∧
    (labelJets R BHadrons alljets).bjets_central_index.length
      = (labelJets R BHadrons alljets).bjets_central.length ∧
    (labelJets R BHadrons alljets).bjets_forward_index.length
      = (labelJets R BHadrons alljets).bjets_forward.length := by
  obtain ⟨a, b, c, _⟩ := labelJets_index_inv R BHadrons alljets
  exact ⟨a, b, c⟩

/-! ## Jet b-labelling: the greedy reference -/

theorem overlap_foldl_eq (R : Rivet) (j : Jet) (leptons : List DressedLepton) (c : Bool) :
    leptons.foldl (overlapStep R j) c = (c && decide (clearOfLeptons R leptons j)) := by
  induction leptons generalizing c with
  | nil => simp [clearOfLeptons]
  | cons fl fls ih =>
    rw [List.foldl_cons, ih]
    unfold overlapStep clearOfLeptons
    by_cases h : R.deltaR fl.constituentLepton.momentum j.momentum ≤ lepton_jet_isolation_dR
    · simp [h]
    · simp [h, not_le.1 h]

theorem deltaRcontrol_eq (R : Rivet) (mu el : List DressedLepton) (j : Jet) :
    deltaRcontrol R mu el j
      = (decide (clearOfLeptons R mu j) && decide (clearOfLeptons R el j)) := by
  unfold deltaRcontrol
  rw [overlap_foldl_eq, overlap_foldl_eq, Bool.true_and]

theorem jetStep_eq (R : Rivet) (mu el : List DressedLepton) (alljets : List Jet) (j : Jet) :
    jetStep R mu el alljets j
      = if jetKept R mu el j then alljets ++ [j] else alljets := by
  unfold jetStep jetKept
  rw [deltaRcontrol_eq]
  by_cases h1 : absrap j > jet_etamax
  · have h2 : ¬ absrap j ≤ jet_etamax := not_le.2 h1
    simp [h1, h2]
  · have h2 : absrap j ≤ jet_etamax := not_lt.1 h1
    by_cases h3 : clearOfLeptons R mu j <;> by_cases h4 : clearOfLeptons R el j <;>
      simp [h1, h2, h3, h4]

theorem selectJets_foldl_eq (R : Rivet) (mu el : List DressedLepton) (jets init : List Jet) :
    jets.foldl (jetStep R mu el) init
      = init ++ jets.filter (fun j => decide (jetKept R mu el j)) := by
  induction jets generalizing init with
  | nil => simp
  | cons j js ih =>
    rw [List.foldl_cons, ih, jetStep_eq]
    by_cases h : jetKept R mu el j
    · simp [List.filter_cons, h]
    · simp [List.filter_cons, h]

theorem selectJets_eq_filter (R : Rivet) (mu el : List DressedLepton) (jets : List Jet) :
    selectJets R mu el jets = jets.filter (fun j => decide (jetKept R mu el j)) := by
  unfold selectJets
  rw [selectJets_foldl_eq, List.nil_append]

theorem selectJets_sublist (R : Rivet) (mu el : List DressedLepton) (jets : List Jet) :
    (selectJets R mu el jets).Sublist jets := by
  rw [selectJets_eq_filter]
  exact List.filter_sublist _

/-- C7: `alljets` is an order-preserving sublist of the input jets; when the input is
sorted by non-increasing `pT`, so are `alljets` and the lists `lightjets`,
`bjets_central`, `bjets_forward` that the labelling loop derives from it. -/
theorem alljets_sorted (R : Rivet) (muon_isolated electron_isolated : List DressedLepton)
    (jets : List Jet) (BHadrons : List Particle) :
    (selectJets R muon_isolated electron_isolated jets).Sublist jets ∧
    (SortedByPt jets →
      SortedByPt (selectJets R muon_isolated electron_isolated jets) ∧
      SortedByPt
        (labelJets R BHadrons (selectJets R muon_isolated electron_isolated jets)).lightjets ∧
      SortedByPt
        (labelJets R BHadrons
          (selectJets R muon_isolated electron_isolated jets)).bjets_central ∧
      SortedByPt
        (labelJets R BHadrons
          (selectJets R muon_isolated electron_isolated jets)).bjets_forward) := by
  have hsub := selectJets_sublist R muon_isolated electron_isolated jets
  refine ⟨hsub, ?_⟩
  intro hs
  have ha : SortedByPt (selectJets R muon_isolated electron_isolated jets) :=
    List.Pairwise.sublist hsub hs
  obtain ⟨sl, sc, sf⟩ :=
    labelJets_sublists R BHadrons (selectJets R muon_isolated electron_isolated jets)
  exact ⟨ha, List.Pairwise.sublist sl ha, List.Pairwise.sublist sc ha,
    List.Pairwise.sublist sf ha⟩

/-- Witness for C7: the jets `J1` (`pT = 100`), `J2` (`pT = 50`) with no isolated
lepton and the hadrons `B1`, `B2`. -/
theorem alljets_sorted_witness :
    SortedByPt [jetJ1, jetJ2] ∧
    SortedByPt (selectJets exampleRivet [] [] [jetJ1, jetJ2]) ∧
    SortedByPt
      (labelJets exampleRivet hadronsB1B2
        (selectJets exampleRivet [] [] [jetJ1, jetJ2])).bjets_central := by
  have hs : SortedByPt [jetJ1, jetJ2] := by
    simp [SortedByPt, jetJ1, jetJ2, mom]
    norm_num
  have h := (alljets_sorted exampleRivet [] [] [jetJ1, jetJ2] hadronsB1B2).2 hs
  exact ⟨hs, h.1, h.2.2.1⟩

/-! ## Role assignment and the entry point: proofs -/

theorem at?_isSome {α : Type} (v : List α) (i : Int) (h0 : 0 ≤ i)
    (h1 : i < (v.length : Int)) : ∃ x, at? v i = some x := by
  unfold at?
  rw [if_neg (not_lt.2 h0)]
  have h : i.toNat < v.length := by omega
  exact ⟨v[i.toNat], List.getElem?_eq_getElem h⟩

theorem assignBjetM_nil (s : State) (BHadrons : List Particle) (ci : List Int)
    (h : s.bjets_central = []) : assignBjetM s BHadrons ci = some s := by
  simp [assignBjetM, h]

theorem assignBjetM_cons (s : State) (BHadrons : List Particle) (ci is : List Int)
    (j0 : Jet) (js : List Jet) (i0 : Int) (b : Particle) (h : s.bjets_central = j0 :: js)
    (hci : ci = i0 :: is) (hb : at? BHadrons i0 = some b) :
    assignBjetM s BHadrons ci = some (if b.charge > 0 then { s with bjet_m := j0 } else s) := by
  by_cases hq : b.charge > 0
  · simp [assignBjetM, h, hci, hb, hq]
  · simp [assignBjetM, h, hci, hb, hq]

theorem assignBjetP_nil (s : State) (BHadrons : List Particle) (ci : List Int)
    (h : s.bjets_central = []) : assignBjetP s BHadrons ci = some s := by
  simp [assignBjetP, h]

theorem assignBjetP_cons (s : State) (BHadrons : List Particle) (ci is : List Int)
    (j0 : Jet) (js : List Jet) (i0 : Int) (b : Particle) (h : s.bjets_central = j0 :: js)
    (hci : ci = i0 :: is) (hb : at? BHadrons i0 = some b) :
    assignBjetP s BHadrons ci = some (if b.charge < 0 then { s with bjet_p := j0 } else s) := by
  by_cases hq : b.charge < 0
  · simp [assignBjetP, h, hci, hb, hq]
  · simp [assignBjetP, h, hci, hb, hq]

/-- The WBF cut flow only appends fills, the first one to `njets_before_WBF`. -/
theorem analyze_WBF_eq (R : Rivet) (s : State) (event : Event) :
    ∃ rest, analyze_WBF R s event =
      { s with fills := s.fills ++
          ⟨Histo.njets_before_WBF, s.alljets.length, event.weight⟩ :: rest } := by
  unfold analyze_WBF
  simp only [State.fill, List.append_assoc, List.singleton_append, List.nil_append,
    List.cons_append]
  repeat' split
  all_goals exact ⟨_, rfl⟩

theorem runAnalyses_eq (R : Rivet) (s : State) (event : Event) :
    ∃ rest, runAnalyses R s event =
      { s with fills := s.fills ++
          ⟨Histo.njets_before_WBF, s.alljets.length, event.weight⟩ :: rest } := by
  unfold runAnalyses analyze_BL analyze_HH analyze_WW
  exact analyze_WBF_eq R s event

/-- An event that fails preselection: `analyze` returns after the object building. -/
theorem analyze_rejected (R : Rivet) (s : State) (event : Event)
    (h : ¬ Preselected R event) :
    analyze R s event
      = some (buildObjects R s event (eventLabels R event) (eventAlljets R event)) := by
  unfold analyze
  simp only []
  split
  · rename_i e m he hm
    split
    · rfl
    · rename_i hq
      exact absurd ⟨e, m, he, hm, not_not.1 hq⟩ h
  · rfl

/-! ## The role assignment as a function of the event -/

theorem assignLeptons_eq (s : State) (e m : DressedLepton) :
    assignLeptons s e m =
      { s with
        lepton_m := if e.particle.charge > 0 then m.particle else e.particle,
        lepton_p := if e.particle.charge > 0 then e.particle else m.particle } := by
  unfold assignLeptons
  by_cases h : e.particle.charge > 0
  · simp [h]
  · simp [h]

theorem assignNuP_uniform (N : List Particle) (LP : Particle) :
    ∃ o : Option Particle, ∀ s : State, s.lepton_p = LP →
      assignNuP s N = { s with nu_p := o.getD s.nu_p } := by
  cases N with
  | nil => exact ⟨none, fun s _ => rfl⟩
  | cons inu rest =>
    by_cases h : inu.pid + LP.pid = 1
    · exact ⟨some inu, fun s hs => by subst hs; simp [assignNuP, h]⟩
    · exact ⟨none, fun s hs => by subst hs; simp [assignNuP, h]⟩

theorem assignNuM_uniform (N : List Particle) (LM : Particle) :
    ∃ o : Option Particle, ∀ s : State, s.lepton_m = LM →
      assignNuM s N = { s with nu_m := o.getD s.nu_m } := by
  cases N with
  | nil => exact ⟨none, fun s _ => rfl⟩
  | cons inu rest =>
    by_cases h : inu.pid + LM.pid = -1
    · exact ⟨some inu, fun s hs => by subst hs; simp [assignNuM, h]⟩
    · exact ⟨none, fun s hs => by subst hs; simp [assignNuM, h]⟩

theorem assignBjetM_uniform (BHadrons : List Particle) (ci : List Int) (bc : List Jet)
    (hlen : ci.length = bc.length)
    (hr : ∀ i ∈ ci, 0 ≤ i ∧ i < (BHadrons.length : Int)) :
    ∃ o : Option Jet, ∀ s : State, s.bjets_central = bc →
      assignBjetM s BHadrons ci = some { s with bjet_m := o.getD s.bjet_m } := by
  rcases bc with _ | ⟨j0, js⟩
  · exact ⟨none, fun s hs => assignBjetM_nil s BHadrons ci hs⟩
  · rcases ci with _ | ⟨i0, is⟩
    · simp at hlen
    · have hi := hr i0 (List.mem_cons_self i0 is)
      obtain ⟨b, hb⟩ := at?_isSome BHadrons i0 hi.1 hi.2
      by_cases hq : b.charge > 0
      · refine ⟨some j0, fun s hs => ?_⟩
        rw [assignBjetM_cons s BHadrons (i0 :: is) is j0 js i0 b hs rfl hb, if_pos hq]
        rfl
      · refine ⟨none, fun s hs => ?_⟩
        rw [assignBjetM_cons s BHadrons (i0 :: is) is j0 js i0 b hs rfl hb, if_neg hq]
        rfl

theorem assignBjetP_uniform (BHadrons : List Particle) (ci : List Int) (bc : List Jet)
    (hlen : ci.length = bc.length)
    (hr : ∀ i ∈ ci, 0 ≤ i ∧ i < (BHadrons.length : Int)) :
    ∃ o : Option Jet, ∀ s : State, s.bjets_central = bc →
      assignBjetP s BHadrons ci = some { s with bjet_p := o.getD s.bjet_p } := by
  rcases bc with _ | ⟨j0, js⟩
  · exact ⟨none, fun s hs => assignBjetP_nil s BHadrons ci hs⟩
  · rcases ci with _ | ⟨i0, is⟩
    · simp at hlen
    · have hi := hr i0 (List.mem_cons_self i0 is)
      obtain ⟨b, hb⟩ := at?_isSome BHadrons i0 hi.1 hi.2
      by_cases hq : b.charge < 0
      · refine ⟨some j0, fun s hs => ?_⟩
        rw [assignBjetP_cons s BHadrons (i0 :: is) is j0 js i0 b hs rfl hb, if_pos hq]
        rfl
      · refine ⟨none, fun s hs => ?_⟩
        rw [assignBjetP_cons s BHadrons (i0 :: is) is j0 js i0 b hs rfl hb, if_neg hq]
        rfl

/-- An event that passes preselection fixes, independently of the prior state, the two
lepton roles and, for each of `nu_p`, `nu_m`, `bjet_m`, `bjet_p`, whether it is assigned
and to what; `analyze` returns the state of the channel analyses run on the state so
updated. -/
theorem analyze_selected_uniform (R : Rivet) (event : Event) (e m : DressedLepton)
    (he : isolatedLeptons R event.vfs_particles event.electron_dressed = [e])
    (hm : isolatedLeptons R event.vfs_particles event.muon_dressed = [m])
    (hq : e.particle.charge * m.particle.charge = -1) :
    ∃ (oNuP oNuM : Option Particle) (oBM oBP : Option Jet), ∀ s : State,
      analyze R s event = some (runAnalyses R
        { buildObjects R s event (eventLabels R event) (eventAlljets R event) with
          lepton_m := if e.particle.charge > 0 then m.particle else e.particle,
          lepton_p := if e.particle.charge > 0 then e.particle else m.particle,
          nu_p := oNuP.getD s.nu_p,
          nu_m := oNuM.getD s.nu_m,
          bjet_m := oBM.getD s.bjet_m,
          bjet_p := oBP.getD s.bjet_p } event) := by
  obtain ⟨_, hlen, _, hr⟩ :=
    labelJets_index_inv R (selectBHadrons R event.ufs) (eventAlljets R event)
  have hr2 : ∀ i ∈ (eventLabels R event).bjets_central_index,
      0 ≤ i ∧ i < ((selectBHadrons R event.ufs).length : Int) :=
    fun i hi => hr i (List.mem_append.2 (Or.inl hi))
  obtain ⟨oNuP, hP⟩ := assignNuP_uniform event.neutrinos
    (if e.particle.charge > 0 then e.particle else m.particle)
  obtain ⟨oNuM, hM⟩ := assignNuM_uniform event.neutrinos
    (if e.particle.charge > 0 then m.particle else e.particle)
  obtain ⟨oBM, hBM⟩ := assignBjetM_uniform (selectBHadrons R event.ufs)
    (eventLabels R event).bjets_central_index (eventLabels R event).bjets_central hlen hr2
  obtain ⟨oBP, hBP⟩ := assignBjetP_uniform (selectBHadrons R event.ufs)
    (eventLabels R event).bjets_central_index (eventLabels R event).bjets_central hlen hr2
  refine ⟨oNuP, oNuM, oBM, oBP, fun s => ?_⟩
  unfold eventLabels eventAlljets at hBM hBP ⊢
  unfold analyze
  simp only [he, hm] at hBM hBP ⊢
  rw [if_neg (not_not.2 hq), assignLeptons_eq, hP _ rfl, hM _ rfl, hBM _ rfl]
  simp only [Option.bind_eq_bind, Option.some_bind]
  rw [hBP _ rfl]
  rfl

/-! ## Preselection and roles -/

/-- In double precision a cone sum of 30 is below the isolation bound of `pT = 30`. -/
theorem exampleIso_30 :
    roundToDouble 30 < roundToDouble (roundToDouble (1 + roundToDouble (1 / 10)) * 30) := by
  have h : (1 / 10 : ℚ) = lepton_iso_frac := by norm_num [lepton_iso_frac]
  rw [h, round_iso_frac, round_one_frac, round_mul_30, round_30]
  norm_num

/-- In double precision a cone sum of 40 is below the isolation bound of `pT = 40`. -/
theorem exampleIso_40 :
    roundToDouble 40 < roundToDouble (roundToDouble (1 + roundToDouble (1 / 10)) * 40) := by
  have h : (1 / 10 : ℚ) = lepton_iso_frac := by norm_num [lepton_iso_frac]
  rw [h, round_iso_frac, round_one_frac, round_mul_40, round_40]
  norm_num

theorem eventEMu_electron :
    isolatedLeptons exampleRivet eventEMu.vfs_particles eventEMu.electron_dressed
      = [positron30] := by
  simp [isolatedLeptons, isoStep, ptcone, ptconeStep, exampleRivet, eventEMu, positron30,
    muon40, mom, lepton_iso_dR, lepton_iso_frac]
  norm_num [abs_eq_max_neg, max_def]
  exact exampleIso_30

theorem eventEMu_muon :
    isolatedLeptons exampleRivet eventEMu.vfs_particles eventEMu.muon_dressed
      = [muon40] := by
  simp [isolatedLeptons, isoStep, ptcone, ptconeStep, exampleRivet, eventEMu, positron30,
    muon40, mom, lepton_iso_dR, lepton_iso_frac]
  norm_num [abs_eq_max_neg, max_def]
  exact exampleIso_40

theorem eventEMu_charges : positron30.particle.charge * muon40.particle.charge = -1 := by
  simp [positron30, muon40]

theorem eventEMu_preselected : Preselected exampleRivet eventEMu :=
  ⟨positron30, muon40, eventEMu_electron, eventEMu_muon, eventEMu_charges⟩

theorem eventEmpty_rejected : ¬ Preselected exampleRivet eventEmpty := by
  rintro ⟨e, m, he, _, _⟩
  simp [isolatedLeptons, eventEmpty] at he

theorem eventSameSign_rejected : ¬ Preselected exampleRivet eventSameSign := by
  rintro ⟨e, m, he, hm, hq⟩
  have h1 : isolatedLeptons exampleRivet eventSameSign.vfs_particles
      eventSameSign.electron_dressed = [positron30] := by
    simp [isolatedLeptons, isoStep, ptcone, ptconeStep, exampleRivet, eventSameSign, eventEMu,
      positron30, antimuon40, mom, lepton_iso_dR, lepton_iso_frac]
    norm_num [abs_eq_max_neg, max_def]
    exact exampleIso_30
  have h2 : isolatedLeptons exampleRivet eventSameSign.vfs_particles
      eventSameSign.muon_dressed = [antimuon40] := by
    simp [isolatedLeptons, isoStep, ptcone, ptconeStep, exampleRivet, eventSameSign, eventEMu,
      positron30, antimuon40, mom, lepton_iso_dR, lepton_iso_frac]
    norm_num [abs_eq_max_neg, max_def]
    exact exampleIso_40
  rw [h1] at he
  rw [h2] at hm
  have e1 : e = positron30 := by simpa using he.symm
  have e2 : m = antimuon40 := by simpa using hm.symm
  rw [e1, e2] at hq
  simp [positron30, antimuon40] at hq
  norm_num at hq

theorem fills_append_ne (l rest : List Fill) (x : Fill) : l ++ x :: rest ≠ l := by
  intro h
  have := congrArg List.length h
  simp at this

/-- C8: `analyze` returns; the channel analyses run iff the event is preselected
(exactly one isolated electron, exactly one isolated muon, product of charges `-1`):
in a preselected event the result is the state of `analyze_BL`, `analyze_HH`,
`analyze_WBF`, `analyze_WW` run on a state with the prior fill log, and the log grows,
first by the `njets_before_WBF` fill; in every other event the fill log and `lepton_m`,
`lepton_p`, `nu_m`, `nu_p`, `bjet_m`, `bjet_p` are unchanged. -/
theorem analyze_preselection (R : Rivet) (s : State) (event : Event) :
    ∃ s', analyze R s event = some s' ∧
      (Preselected R event →
        ∃ s0 rest, s0.fills = s.fills ∧
          s' = analyze_BL (analyze_HH (analyze_WBF R (analyze_WW s0 event) event) event)
            event ∧
          s'.fills = s.fills ++
            ⟨Histo.njets_before_WBF, (eventAlljets R event).length, event.weight⟩ :: rest) ∧
      (¬ Preselected R event →
        s'.fills = s.fills ∧ s'.lepton_m = s.lepton_m ∧ s'.lepton_p = s.lepton_p ∧
        s'.nu_m = s.nu_m ∧ s'.nu_p = s.nu_p ∧ s'.bjet_m = s.bjet_m ∧
        s'.bjet_p = s.bjet_p) ∧
      (Preselected R event ↔ s'.fills ≠ s.fills) := by
  by_cases hp : Preselected R event
  · obtain ⟨e, m, he, hm, hq⟩ := hp
    obtain ⟨oNuP, oNuM, oBM, oBP, h⟩ := analyze_selected_uniform R event e m he hm hq
    obtain ⟨rest, hrun⟩ := runAnalyses_eq R
      { buildObjects R s event (eventLabels R event) (eventAlljets R event) with
        lepton_m := if e.particle.charge > 0 then m.particle else e.particle,
        lepton_p := if e.particle.charge > 0 then e.particle else m.particle,
        nu_p := oNuP.getD s.nu_p,
        nu_m := oNuM.getD s.nu_m,
        bjet_m := oBM.getD s.bjet_m,
        bjet_p := oBP.getD s.bjet_p } event
    have hf : (runAnalyses R
        { buildObjects R s event (eventLabels R event) (eventAlljets R event) with
          lepton_m := if e.particle.charge > 0 then m.particle else e.particle,
          lepton_p := if e.particle.charge > 0 then e.particle else m.particle,
          nu_p := oNuP.getD s.nu_p,
          nu_m := oNuM.getD s.nu_m,
          bjet_m := oBM.getD s.bjet_m,
          bjet_p := oBP.getD s.bjet_p } event).fills = s.fills ++
        ⟨Histo.njets_before_WBF, (eventAlljets R event).length, event.weight⟩ :: rest := by
      rw [hrun]
      rfl
    refine ⟨_, h s, fun _ => ⟨_, rest, ?_, rfl, hf⟩, fun hn => absurd ⟨e, m, he, hm, hq⟩ hn,
      fun _ => ?_, fun _ => ⟨e, m, he, hm, hq⟩⟩
    · rfl
    · rw [hf]
      exact fills_append_ne _ _ _
  · refine ⟨_, analyze_rejected R s event hp, fun h => absurd h hp,
      fun _ => ⟨rfl, rfl, rfl, rfl, rfl, rfl, rfl⟩, fun h => absurd h hp, fun h => ?_⟩
    exact absurd rfl h

/-- Witness for C8: the event `eventEMu` is preselected and its fill log grows; the
event `eventSameSign`, with a positron and an antimuon, is not preselected, and its
fill log and lepton roles are those of the prior state. -/
theorem analyze_preselection_witness :
    Preselected exampleRivet eventEMu ∧ ¬ Preselected exampleRivet eventSameSign ∧
    (∃ s', analyze exampleRivet (stateOf 0) eventEMu = some s' ∧
      s'.fills ≠ (stateOf 0).fills) ∧
    (∃ s', analyze exampleRivet (stateOf 0) eventSameSign = some s' ∧
      s'.fills = (stateOf 0).fills ∧ s'.lepton_m = (stateOf 0).lepton_m ∧
      s'.lepton_p = (stateOf 0).lepton_p) := by
  obtain ⟨s', h1, _, _, h4⟩ := analyze_preselection exampleRivet (stateOf 0) eventEMu
  obtain ⟨t', k1, _, k3, _⟩ := analyze_preselection exampleRivet (stateOf 0) eventSameSign
  have k := k3 eventSameSign_rejected
  exact ⟨eventEMu_preselected, eventSameSign_rejected, ⟨s', h1, h4.1 eventEMu_preselected⟩,
    ⟨t', k1, k.1, k.2.1, k.2.2.1⟩⟩

/-- C9: in an event that passes preselection, with `e` the isolated electron and `m`
the isolated muon, `analyze` returns and the roles are by charge sign: `lepton_p` has
positive charge, `lepton_m` negative charge, and one of them is `e` and the other `m`. -/
theorem lepton_roles_by_charge (R : Rivet) (s : State) (event : Event)
    (e m : DressedLepton)
    (he : isolatedLeptons R event.vfs_particles event.electron_dressed = [e])
    (hm : isolatedLeptons R event.vfs_particles event.muon_dressed = [m])
    (hq : e.particle.charge * m.particle.charge = -1) :
    ∃ s', analyze R s event = some s' ∧
      0 < s'.lepton_p.charge ∧ s'.lepton_m.charge < 0 ∧
      ((s'.lepton_p = e.particle ∧ s'.lepton_m = m.particle) ∨
        (s'.lepton_p = m.particle ∧ s'.lepton_m = e.particle)) := by
  obtain ⟨oNuP, oNuM, oBM, oBP, h⟩ := analyze_selected_uniform R event e m he hm hq
  obtain ⟨rest, hrun⟩ := runAnalyses_eq R
    { buildObjects R s event (eventLabels R event) (eventAlljets R event) with
      lepton_m := if e.particle.charge > 0 then m.particle else e.particle,
      lepton_p := if e.particle.charge > 0 then e.particle else m.particle,
      nu_p := oNuP.getD s.nu_p,
      nu_m := oNuM.getD s.nu_m,
      bjet_m := oBM.getD s.bjet_m,
      bjet_p := oBP.getD s.bjet_p } event
  refine ⟨_, h s, ?_⟩
  rw [hrun]
  show 0 < (if e.particle.charge > 0 then e.particle else m.particle).charge ∧
    (if e.particle.charge > 0 then m.particle else e.particle).charge < 0 ∧
    (((if e.particle.charge > 0 then e.particle else m.particle) = e.particle ∧
        (if e.particle.charge > 0 then m.particle else e.particle) = m.particle) ∨
      ((if e.particle.charge > 0 then e.particle else m.particle) = m.particle ∧
        (if e.particle.charge > 0 then m.particle else e.particle) = e.particle))
  by_cases hc : e.particle.charge > 0
  · rw [if_pos hc, if_pos hc]
    refine ⟨hc, ?_, Or.inl ⟨rfl, rfl⟩⟩
    by_contra hn
    have : 0 ≤ e.particle.charge * m.particle.charge :=
      mul_nonneg (le_of_lt hc) (not_lt.1 hn)
    rw [hq] at this
    norm_num at this
  · rw [if_neg hc, if_neg hc]
    have he0 : e.particle.charge ≤ 0 := not_lt.1 hc
    have hm0 : 0 < m.particle.charge := by
      by_contra hn
      have : 0 ≤ e.particle.charge * m.particle.charge :=
        mul_nonneg_of_nonpos_of_nonpos he0 (not_lt.1 hn)
      rw [hq] at this
      norm_num at this
    have he1 : e.particle.charge < 0 := by
      rcases lt_or_eq_of_le he0 with h1 | h1
      · exact h1
      · rw [h1, zero_mul] at hq
        norm_num at hq
    exact ⟨hm0, he1, Or.inr ⟨rfl, rfl⟩⟩

/-- Witness for C9: the event `eventEMu`, where the positron takes the role
`lepton_p` and the muon the role `lepton_m`. -/
theorem lepton_roles_by_charge_witness :
    ∃ s', analyze exampleRivet (stateOf 0) eventEMu = some s' ∧
      0 < s'.lepton_p.charge ∧ s'.lepton_m.charge < 0 ∧
      ((s'.lepton_p = positron30.particle ∧ s'.lepton_m = muon40.particle) ∨
        (s'.lepton_p = muon40.particle ∧ s'.lepton_m = positron30.particle)) :=
  lepton_roles_by_charge exampleRivet (stateOf 0) eventEMu positron30 muon40
    eventEMu_electron eventEMu_muon eventEMu_charges

/-! ## What one call of `analyze` keeps from the prior state -/

theorem getD_eq_or {α : Type} (o : Option α) (a b : α) :
    o.getD a = o.getD b ∨ (o.getD a = a ∧ o.getD b = b) := by
  cases o with
  | none => exact Or.inr ⟨rfl, rfl⟩
  | some x => exact Or.inl rfl

/-- C10, as stated, fails.  On the empty event (not preselected) the members
`lepton_m`, `lepton_p`, `nu_m`, `nu_p`, `bjet_m`, `bjet_p`, `m_ll`, `m_trans_llMET` after
`analyze` are those of the prior state, so two prior states give different values; on
the preselected event `eventEMu` the members `m_ll` and `m_trans_llMET` after `analyze`
still differ with the prior state. -/
theorem cross_event_memory :
    ∃ rA rB qA qB,
      analyze exampleRivet (stateOf 0) eventEmpty = some rA ∧
      analyze exampleRivet (stateOf 1) eventEmpty = some rB ∧
      rA.lepton_m ≠ rB.lepton_m ∧ rA.lepton_p ≠ rB.lepton_p ∧ rA.nu_m ≠ rB.nu_m ∧
      rA.nu_p ≠ rB.nu_p ∧ rA.bjet_m ≠ rB.bjet_m ∧ rA.bjet_p ≠ rB.bjet_p ∧
      rA.m_ll ≠ rB.m_ll ∧ rA.m_trans_llMET ≠ rB.m_trans_llMET ∧
      analyze exampleRivet (stateOf 0) eventEMu = some qA ∧
      analyze exampleRivet (stateOf 1) eventEMu = some qB ∧
      qA.m_ll ≠ qB.m_ll ∧ qA.m_trans_llMET ≠ qB.m_trans_llMET := by
  obtain ⟨oNuP, oNuM, oBM, oBP, h⟩ := analyze_selected_uniform exampleRivet eventEMu
    positron30 muon40 eventEMu_electron eventEMu_muon eventEMu_charges
  refine ⟨_, _, _, _, analyze_rejected exampleRivet (stateOf 0) eventEmpty eventEmpty_rejected,
    analyze_rejected exampleRivet (stateOf 1) eventEmpty eventEmpty_rejected,
    ?_, ?_, ?_, ?_, ?_, ?_, ?_, ?_, h (stateOf 0), h (stateOf 1), ?_, ?_⟩
  · simp [buildObjects, stateOf]
  · simp [buildObjects, stateOf]
  · simp [buildObjects, stateOf]
  · simp [buildObjects, stateOf]
  · simp [buildObjects, stateOf, mom]
  · simp [buildObjects, stateOf, mom]
  · simp [buildObjects, stateOf]
  · simp [buildObjects, stateOf]
  · obtain ⟨r0, h0⟩ := runAnalyses_eq exampleRivet
      { buildObjects exampleRivet (stateOf 0) eventEMu (eventLabels exampleRivet eventEMu)
          (eventAlljets exampleRivet eventEMu) with
        lepton_m := if positron30.particle.charge > 0 then muon40.particle
          else positron30.particle,
        lepton_p := if positron30.particle.charge > 0 then positron30.particle
          else muon40.particle,
        nu_p := oNuP.getD (stateOf 0).nu_p,
        nu_m := oNuM.getD (stateOf 0).nu_m,
        bjet_m := oBM.getD (stateOf 0).bjet_m,
        bjet_p := oBP.getD (stateOf 0).bjet_p } eventEMu
    obtain ⟨r1, h1⟩ := runAnalyses_eq exampleRivet
      { buildObjects exampleRivet (stateOf 1) eventEMu (eventLabels exampleRivet eventEMu)
          (eventAlljets exampleRivet eventEMu) with
        lepton_m := if positron30.particle.charge > 0 then muon40.particle
          else positron30.particle,
        lepton_p := if positron30.particle.charge > 0 then positron30.particle
          else muon40.particle,
        nu_p := oNuP.getD (stateOf 1).nu_p,
        nu_m := oNuM.getD (stateOf 1).nu_m,
        bjet_m := oBM.getD (stateOf 1).bjet_m,
        bjet_p := oBP.getD (stateOf 1).bjet_p } eventEMu
    rw [h0, h1]
    simp [buildObjects, stateOf]
  · obtain ⟨r0, h0⟩ := runAnalyses_eq exampleRivet
      { buildObjects exampleRivet (stateOf 0) eventEMu (eventLabels exampleRivet eventEMu)
          (eventAlljets exampleRivet eventEMu) with
        lepton_m := if positron30.particle.charge > 0 then muon40.particle
          else positron30.particle,
        lepton_p := if positron30.particle.charge > 0 then positron30.particle
          else muon40.particle,
        nu_p := oNuP.getD (stateOf 0).nu_p,
        nu_m := oNuM.getD (stateOf 0).nu_m,
        bjet_m := oBM.getD (stateOf 0).bjet_m,
        bjet_p := oBP.getD (stateOf 0).bjet_p } eventEMu
    obtain ⟨r1, h1⟩ := runAnalyses_eq exampleRivet
      { buildObjects exampleRivet (stateOf 1) eventEMu (eventLabels exampleRivet eventEMu)
          (eventAlljets exampleRivet eventEMu) with
        lepton_m := if positron30.particle.charge > 0 then muon40.particle
          else positron30.particle,
        lepton_p := if positron30.particle.charge > 0 then positron30.particle
          else muon40.particle,
        nu_p := oNuP.getD (stateOf 1).nu_p,
        nu_m := oNuM.getD (stateOf 1).nu_m,
        bjet_m := oBM.getD (stateOf 1).bjet_m,
        bjet_p := oBP.getD (stateOf 1).bjet_p } eventEMu
    rw [h0, h1]
    simp [buildObjects, stateOf]

/-- C10, amended: for every event and every two prior states `analyze` returns, and
`MET` after `analyze` is the same; in an event that passes preselection `lepton_m` and
`lepton_p` are the same, and each of `nu_p`, `nu_m`, `bjet_m`, `bjet_p` is either the
same (assigned from this event) or in both runs the value of the prior state (not
assigned in this event); in an event that fails preselection `lepton_m`, `lepton_p`,
`nu_m`, `nu_p`, `bjet_m`, `bjet_p` keep the values of the prior state. -/
theorem per_event_recomputation (R : Rivet) (event : Event) (s t : State) :
    ∃ r q, analyze R s event = some r ∧ analyze R t event = some q ∧
      r.MET = q.MET ∧
      (Preselected R event →
        r.lepton_m = q.lepton_m ∧ r.lepton_p = q.lepton_p ∧
        (r.nu_p = q.nu_p ∨ (r.nu_p = s.nu_p ∧ q.nu_p = t.nu_p)) ∧
        (r.nu_m = q.nu_m ∨ (r.nu_m = s.nu_m ∧ q.nu_m = t.nu_m)) ∧
        (r.bjet_m = q.bjet_m ∨ (r.bjet_m = s.bjet_m ∧ q.bjet_m = t.bjet_m)) ∧
        (r.bjet_p = q.bjet_p ∨ (r.bjet_p = s.bjet_p ∧ q.bjet_p = t.bjet_p))) ∧
      (¬ Preselected R event →
        (r.lepton_m = s.lepton_m ∧ r.lepton_p = s.lepton_p ∧ r.nu_m = s.nu_m ∧
          r.nu_p = s.nu_p ∧ r.bjet_m = s.bjet_m ∧ r.bjet_p = s.bjet_p) ∧
        (q.lepton_m = t.lepton_m ∧ q.lepton_p = t.lepton_p ∧ q.nu_m = t.nu_m ∧
          q.nu_p = t.nu_p ∧ q.bjet_m = t.bjet_m ∧ q.bjet_p = t.bjet_p)) := by
  by_cases hp : Preselected R event
  · obtain ⟨e, m, he, hm, hq⟩ := hp
    obtain ⟨oNuP, oNuM, oBM, oBP, h⟩ := analyze_selected_uniform R event e m he hm hq
    obtain ⟨r0, h0⟩ := runAnalyses_eq R
      { buildObjects R s event (eventLabels R event) (eventAlljets R event) with
        lepton_m := if e.particle.charge > 0 then m.particle else e.particle,
        lepton_p := if e.particle.charge > 0 then e.particle else m.particle,
        nu_p := oNuP.getD s.nu_p,
        nu_m := oNuM.getD s.nu_m,
        bjet_m := oBM.getD s.bjet_m,
        bjet_p := oBP.getD s.bjet_p } event
    obtain ⟨r1, h1⟩ := runAnalyses_eq R
      { buildObjects R t event (eventLabels R event) (eventAlljets R event) with
        lepton_m := if e.particle.charge > 0 then m.particle else e.particle,
        lepton_p := if e.particle.charge > 0 then e.particle else m.particle,
        nu_p := oNuP.getD t.nu_p,
        nu_m := oNuM.getD t.nu_m,
        bjet_m := oBM.getD t.bjet_m,
        bjet_p := oBP.getD t.bjet_p } event
    refine ⟨_, _, h s, h t, ?_, fun _ => ?_, fun hn => absurd ⟨e, m, he, hm, hq⟩ hn⟩
    · rw [h0, h1]
      rfl
    · rw [h0, h1]
      exact ⟨rfl, rfl, getD_eq_or oNuP s.nu_p t.nu_p, getD_eq_or oNuM s.nu_m t.nu_m,
        getD_eq_or oBM s.bjet_m t.bjet_m, getD_eq_or oBP s.bjet_p t.bjet_p⟩
  · refine ⟨_, _, analyze_rejected R s event hp, analyze_rejected R t event hp, rfl,
      fun h => absurd h hp, fun _ => ⟨⟨rfl, rfl, rfl, rfl, rfl, rfl⟩, rfl, rfl, rfl, rfl, rfl, rfl⟩⟩

/-! ## The WBF cut flow -/

theorem ite_gt_eq_max (a b : ℚ) : (if a > b then a else b) = max a b := by
  by_cases h : a > b
  · rw [if_pos h, max_eq_left (le_of_lt h)]
  · rw [if_neg h, max_eq_right (not_lt.1 h)]

theorem ite_gt_eq_min (a b : ℚ) : (if a > b then b else a) = min a b := by
  by_cases h : a > b
  · rw [if_pos h, min_eq_right (le_of_lt h)]
  · rw [if_neg h, min_eq_left (not_lt.1 h)]

/-- With fewer than two jets, `analyze_WBF` makes the `njets_before_WBF` fill only. -/
theorem analyze_WBF_few (R : Rivet) (s : State) (event : Event)
    (h : s.alljets.length < 2) :
    analyze_WBF R s event =
      { s with fills := s.fills ++
          [⟨Histo.njets_before_WBF, s.alljets.length, event.weight⟩] } := by
  unfold analyze_WBF
  simp only [State.fill]
  split
  · rename_i j0 j1 rest heq
    have heq2 : s.alljets = j0 :: j1 :: rest := heq
    rw [heq2] at h
    simp only [List.length_cons] at h
    omega
  · rfl

/-- With two leading jets `j0`, `j1`, the fills of `analyze_WBF` by the outcome of the
tests of the code. -/
theorem analyze_WBF_two (R : Rivet) (s : State) (event : Event) (j0 j1 : Jet)
    (rest : List Jet) (h : s.alljets = j0 :: j1 :: rest) :
    analyze_WBF R s event =
      { s with fills := s.fills ++
          (⟨Histo.njets_before_WBF, s.alljets.length, event.weight⟩ ::
            (if j0.momentum.eta * j1.momentum.eta > 0 ∨
                |j0.momentum.eta - j1.momentum.eta| < s.deltayJJ_min_WBF ∨
                (R.add j0.momentum j1.momentum).mass < s.massJJ_min_WBF then []
              else ⟨Histo.cuts_WBF, 2, event.weight⟩ ::
                (if s.m_trans_llMET < s.m_trans_llMET_min_WBF ∨ s.m_ll < s.m_ll_min_WBF
                  then []
                  else if max s.lepton_m.momentum.pT s.lepton_p.momentum.pT
                        < s.ptlep1_min_WBF ∨
                      min s.lepton_m.momentum.pT s.lepton_p.momentum.pT
                        < s.ptlep2_min_WBF ∨
                      s.MET < s.MET_min_WBF then []
                    else [⟨Histo.cuts_WBF, 3, event.weight⟩,
                      ⟨Histo.njets_after_WBF, s.alljets.length, event.weight⟩]))) } := by
  unfold analyze_WBF
  simp only [State.fill, h, ite_gt_eq_max, ite_gt_eq_min]
  by_cases c2 : j0.momentum.eta * j1.momentum.eta > 0 ∨
      |j0.momentum.eta - j1.momentum.eta| < s.deltayJJ_min_WBF ∨
      (R.add j0.momentum j1.momentum).mass < s.massJJ_min_WBF
  · simp only [if_pos c2]
  · simp only [if_neg c2]
    by_cases c3 : s.m_trans_llMET < s.m_trans_llMET_min_WBF ∨ s.m_ll < s.m_ll_min_WBF
    · simp only [if_pos c3, List.append_assoc, List.singleton_append]
    · simp only [if_neg c3]
      by_cases c4 : max s.lepton_m.momentum.pT s.lepton_p.momentum.pT < s.ptlep1_min_WBF ∨
          min s.lepton_m.momentum.pT s.lepton_p.momentum.pT < s.ptlep2_min_WBF ∨
          s.MET < s.MET_min_WBF
      · simp only [if_pos c4, List.append_assoc, List.singleton_append]
      · simp only [if_neg c4, List.append_assoc, List.singleton_append, List.cons_append,
          List.nil_append]

theorem passCut2_iff (R : Rivet) (s : State) (j0 j1 : Jet) (rest : List Jet)
    (h : s.alljets = j0 :: j1 :: rest) :
    PassCut2 R s ↔
      ¬ (j0.momentum.eta * j1.momentum.eta > 0 ∨
        |j0.momentum.eta - j1.momentum.eta| < s.deltayJJ_min_WBF ∨
        (R.add j0.momentum j1.momentum).mass < s.massJJ_min_WBF) := by
  unfold PassCut2
  constructor
  · rintro ⟨a, b, r, hab, h1, h2, h3⟩
    rw [h] at hab
    simp only [List.cons.injEq] at hab
    obtain ⟨rfl, rfl, _⟩ := hab
    rintro (c | c | c)
    · exact absurd h1 (not_le.2 c)
    · exact absurd h2 (not_le.2 c)
    · exact absurd h3 (not_le.2 c)
  · intro hn
    rw [not_or, not_or] at hn
    exact ⟨j0, j1, rest, h, not_lt.1 hn.1, not_lt.1 hn.2.1, not_lt.1 hn.2.2⟩

theorem passCut2_two_jets (R : Rivet) (s : State) (h : PassCut2 R s) :
    2 ≤ s.alljets.length := by
  obtain ⟨j0, j1, rest, hab, _⟩ := h
  rw [hab]
  simp

theorem passCut3_iff (s : State) :
    PassCut3 s ↔
      ¬ (s.m_trans_llMET < s.m_trans_llMET_min_WBF ∨ s.m_ll < s.m_ll_min_WBF) ∧
      ¬ (max s.lepton_m.momentum.pT s.lepton_p.momentum.pT < s.ptlep1_min_WBF ∨
        min s.lepton_m.momentum.pT s.lepton_p.momentum.pT < s.ptlep2_min_WBF ∨
        s.MET < s.MET_min_WBF) := by
  unfold PassCut3
  rw [not_or, not_or, not_or, not_lt, not_lt, not_lt, not_lt, not_lt]
  tauto

theorem drop_fills_append (l new : List Fill) : (l ++ new).drop l.length = new := by
  simp

/-- The fills of one call of `analyze_WBF`, by the cuts of the specification. -/
theorem wbfFills_cases (R : Rivet) (s : State) (event : Event) :
    analyze_WBF R s event = { s with fills := s.fills ++ wbfFills R s event } ∧
    (¬ PassCut2 R s → wbfFills R s event =
      [⟨Histo.njets_before_WBF, s.alljets.length, event.weight⟩]) ∧
    (PassCut2 R s → ¬ PassCut3 s → wbfFills R s event =
      [⟨Histo.njets_before_WBF, s.alljets.length, event.weight⟩,
        ⟨Histo.cuts_WBF, 2, event.weight⟩]) ∧
    (PassCut2 R s → PassCut3 s → wbfFills R s event =
      [⟨Histo.njets_before_WBF, s.alljets.length, event.weight⟩,
        ⟨Histo.cuts_WBF, 2, event.weight⟩, ⟨Histo.cuts_WBF, 3, event.weight⟩,
        ⟨Histo.njets_after_WBF, s.alljets.length, event.weight⟩]) := by
  by_cases hlen : s.alljets.length < 2
  · have hw : wbfFills R s event =
        [⟨Histo.njets_before_WBF, s.alljets.length, event.weight⟩] := by
      unfold wbfFills
      rw [analyze_WBF_few R s event hlen]
      exact drop_fills_append _ _
    have hn : ¬ PassCut2 R s := fun h => absurd (passCut2_two_jets R s h) (not_le.2 hlen)
    refine ⟨?_, fun _ => hw, fun h => absurd h hn, fun h => absurd h hn⟩
    rw [hw]
    exact analyze_WBF_few R s event hlen
  · obtain ⟨j0, j1, rest, hall⟩ : ∃ j0 j1 rest, s.alljets = j0 :: j1 :: rest := by
      rcases hs : s.alljets with _ | ⟨a, _ | ⟨b, r⟩⟩
      · rw [hs] at hlen; simp at hlen
      · rw [hs] at hlen; simp at hlen
      · exact ⟨a, b, r, rfl⟩
    have h2 := analyze_WBF_two R s event j0 j1 rest hall
    have hw : wbfFills R s event = (analyze_WBF R s event).fills.drop s.fills.length := rfl
    rw [h2] at hw
    simp only [drop_fills_append] at hw
    have p2 := passCut2_iff R s j0 j1 rest hall
    have p3 := passCut3_iff s
    refine ⟨?_, ?_, ?_, ?_⟩
    · rw [hw]
      exact h2
    · intro hn
      rw [hw, if_pos (not_not.1 (fun c => hn (p2.2 c)))]
    · intro hp hn
      rw [hw, if_neg (p2.1 hp)]
      by_cases c3 : s.m_trans_llMET < s.m_trans_llMET_min_WBF ∨ s.m_ll < s.m_ll_min_WBF
      · rw [if_pos c3]
      · rw [if_neg c3, if_pos (not_not.1 (fun c => hn (p3.2 ⟨c3, c⟩)))]
    · intro hp hq
      rw [hw, if_neg (p2.1 hp), if_neg (p3.1 hq).1, if_neg (p3.1 hq).2]

theorem wbfFills_cut2_of_pass (R : Rivet) (s : State) (event : Event)
    (hp : PassCut2 R s) : (⟨Histo.cuts_WBF, 2, event.weight⟩ : Fill) ∈ wbfFills R s event := by
  obtain ⟨_, _, h2, h3⟩ := wbfFills_cases R s event
  by_cases hq : PassCut3 s
  · rw [h3 hp hq]
    simp
  · rw [h2 hp hq]
    simp

theorem stateWBF_passCut2 : PassCut2 exampleRivet stateWBF := by
  refine ⟨⟨⟨100, -2, -2, 0, 300⟩⟩, ⟨⟨80, 2, 2, 0, 300⟩⟩, [], rfl, ?_, ?_, ?_⟩
  · norm_num
  · simp [stateWBF, stateOf]
    norm_num [abs_eq_max_neg, max_def]
  · simp [stateWBF, stateOf, exampleRivet]
    norm_num

theorem stateWBF_passCut3 : PassCut3 stateWBF := by
  unfold PassCut3
  simp [stateWBF, stateOf, mom]
  norm_num [max_def, min_def]

/-- C11: one call of `analyze_WBF` fills `cuts_WBF` at stage 2 iff `alljets` has at
least two jets, the pseudorapidities of the two leading jets have a product `<= 0`,
their separation is at least `deltayJJ_min_WBF` and the invariant mass of their sum is
at least `massJJ_min_WBF`; two leading jets of pseudorapidity `+1` and `+1` give no
`cuts_WBF` fill, whatever the thresholds. -/
theorem wbf_cut2 (R : Rivet) (s : State) (event : Event) :
    ((⟨Histo.cuts_WBF, 2, event.weight⟩ : Fill) ∈ wbfFills R s event ↔
      ∃ j0 j1 rest, s.alljets = j0 :: j1 :: rest ∧
        j0.momentum.eta * j1.momentum.eta ≤ 0 ∧
        s.deltayJJ_min_WBF ≤ |j0.momentum.eta - j1.momentum.eta| ∧
        s.massJJ_min_WBF ≤ (R.add j0.momentum j1.momentum).mass) ∧
    (∀ j0 j1 rest, s.alljets = j0 :: j1 :: rest → j0.momentum.eta = 1 →
      j1.momentum.eta = 1 → ∀ f ∈ wbfFills R s event, f.histo ≠ Histo.cuts_WBF) := by
  obtain ⟨_, h1, h2, h3⟩ := wbfFills_cases R s event
  constructor
  · show _ ↔ PassCut2 R s
    by_cases hp : PassCut2 R s
    · by_cases hq : PassCut3 s
      · rw [h3 hp hq]
        simp [hp]
      · rw [h2 hp hq]
        simp [hp]
    · rw [h1 hp]
      simp [hp]
  · intro j0 j1 rest hall e0 e1 f hf
    have hn : ¬ PassCut2 R s := by
      rw [passCut2_iff R s j0 j1 rest hall, not_not, e0, e1]
      left
      norm_num
    rw [h1 hn] at hf
    rw [List.mem_singleton.1 hf]
    simp

/-- Witness for C11: the state `stateWBF` (pseudorapidities -2 and +2) gets the stage-2
fill; the state `stateWBFSameSide` (pseudorapidities +1 and +1) gets no `cuts_WBF`
fill. -/
theorem wbf_cut2_witness :
    (⟨Histo.cuts_WBF, 2, eventEMu.weight⟩ : Fill) ∈ wbfFills exampleRivet stateWBF eventEMu ∧
    ∀ f ∈ wbfFills exampleRivet stateWBFSameSide eventEMu, f.histo ≠ Histo.cuts_WBF :=
  ⟨(wbf_cut2 exampleRivet stateWBF eventEMu).1.2 stateWBF_passCut2,
    (wbf_cut2 exampleRivet stateWBFSameSide eventEMu).2 _ _ _ rfl rfl rfl⟩

theorem passCut3_swap (s : State) : PassCut3 (swapLeptonPt s) ↔ PassCut3 s := by
  unfold PassCut3 swapLeptonPt
  simp only []
  rw [max_comm, min_comm]

/-- C12: one call of `analyze_WBF` fills `cuts_WBF` at stage 3 iff stage 2 was filled and
the transverse mass, the di-lepton mass, the larger and the smaller of the two lepton
`pT` and `MET` are at or above their thresholds; `njets_after_WBF` is filled exactly
when stage 3 is, and only at `alljets.size()`; the fills are the same when the `pT` of
`lepton_m` and `lepton_p` are swapped. -/
theorem wbf_cut3 (R : Rivet) (s : State) (event : Event) :
    ((⟨Histo.cuts_WBF, 3, event.weight⟩ : Fill) ∈ wbfFills R s event ↔
      (⟨Histo.cuts_WBF, 2, event.weight⟩ : Fill) ∈ wbfFills R s event ∧
        s.m_trans_llMET_min_WBF ≤ s.m_trans_llMET ∧ s.m_ll_min_WBF ≤ s.m_ll ∧
        s.ptlep1_min_WBF ≤ max s.lepton_m.momentum.pT s.lepton_p.momentum.pT ∧
        s.ptlep2_min_WBF ≤ min s.lepton_m.momentum.pT s.lepton_p.momentum.pT ∧
        s.MET_min_WBF ≤ s.MET) ∧
    ((⟨Histo.njets_after_WBF, s.alljets.length, event.weight⟩ : Fill) ∈ wbfFills R s event ↔
      (⟨Histo.cuts_WBF, 3, event.weight⟩ : Fill) ∈ wbfFills R s event) ∧
    (∀ f ∈ wbfFills R s event, f.histo = Histo.njets_after_WBF →
      (⟨Histo.cuts_WBF, 3, event.weight⟩ : Fill) ∈ wbfFills R s event ∧
        f = ⟨Histo.njets_after_WBF, s.alljets.length, event.weight⟩) ∧
    wbfFills R (swapLeptonPt s) event = wbfFills R s event := by
  obtain ⟨_, h1, h2, h3⟩ := wbfFills_cases R s event
  obtain ⟨_, k1, k2, k3⟩ := wbfFills_cases R (swapLeptonPt s) event
  have hsw2 : PassCut2 R (swapLeptonPt s) ↔ PassCut2 R s := Iff.rfl
  have hsw3 := passCut3_swap s
  have hlen : (swapLeptonPt s).alljets = s.alljets := rfl
  by_cases hp : PassCut2 R s
  · by_cases hq : PassCut3 s
    · rw [h3 hp hq, k3 (hsw2.2 hp) (hsw3.2 hq), hlen]
      refine ⟨⟨fun _ => ⟨by simp, hq⟩, fun _ => by simp⟩, ?_, ?_, rfl⟩
      · simp
      · intro f hf hh
        simp only [List.mem_cons, List.mem_singleton, List.not_mem_nil, or_false] at hf
        rcases hf with rfl | rfl | rfl | rfl
        · simp at hh
        · simp at hh
        · simp at hh
        · simp
    · rw [h2 hp hq, k2 (hsw2.2 hp) (fun c => hq (hsw3.1 c)), hlen]
      refine ⟨⟨fun h => by simp at h, fun h => absurd h.2 hq⟩, ?_, ?_, rfl⟩
      · simp
      · intro f hf hh
        simp only [List.mem_cons, List.mem_singleton, List.not_mem_nil, or_false] at hf
        rcases hf with rfl | rfl
        · simp at hh
        · simp at hh
  · rw [h1 hp, k1 (fun c => hp (hsw2.1 c)), hlen]
    refine ⟨?_, ?_, ?_, rfl⟩
    · simp
    · simp
    · intro f hf hh
      rw [List.mem_singleton.1 hf] at hh
      simp at hh

/-- Witness for C12: the state `stateWBF`, above every threshold, gets the stage-3 fill
and the `njets_after_WBF` fill at 2. -/
theorem wbf_cut3_witness :
    (⟨Histo.cuts_WBF, 3, eventEMu.weight⟩ : Fill) ∈ wbfFills exampleRivet stateWBF eventEMu ∧
    (⟨Histo.njets_after_WBF, 2, eventEMu.weight⟩ : Fill)
      ∈ wbfFills exampleRivet stateWBF eventEMu := by
  have h := wbf_cut3 exampleRivet stateWBF eventEMu
  have h3 : (⟨Histo.cuts_WBF, 3, eventEMu.weight⟩ : Fill)
      ∈ wbfFills exampleRivet stateWBF eventEMu :=
    h.1.2 ⟨wbfFills_cut2_of_pass exampleRivet stateWBF eventEMu stateWBF_passCut2,
      stateWBF_passCut3⟩
  refine ⟨h3, ?_⟩
  have h4 := h.2.1.2 h3
  simpa [stateWBF] using h4

/-- C13: the fills made by one call of `analyze_WBF` are, in order, exactly one of
`[njets_before(n)]`, `[njets_before(n), cuts(2)]`,
`[njets_before(n), cuts(2), cuts(3), njets_after(n)]` with `n = alljets.size()`, each
with the event weight; they are appended to the fill log; `njets_before_WBF` is filled
exactly once, a stage-3 fill comes with a stage-2 fill, and with fewer than two jets
the only fill is the `njets_before_WBF` one. -/
theorem wbf_linear (R : Rivet) (s : State) (event : Event) :
    (analyze_WBF R s event).fills = s.fills ++ wbfFills R s event ∧
    (wbfFills R s event = [⟨Histo.njets_before_WBF, s.alljets.length, event.weight⟩] ∨
      wbfFills R s event =
        [⟨Histo.njets_before_WBF, s.alljets.length, event.weight⟩,
          ⟨Histo.cuts_WBF, 2, event.weight⟩] ∨
      wbfFills R s event =
        [⟨Histo.njets_before_WBF, s.alljets.length, event.weight⟩,
          ⟨Histo.cuts_WBF, 2, event.weight⟩, ⟨Histo.cuts_WBF, 3, event.weight⟩,
          ⟨Histo.njets_after_WBF, s.alljets.length, event.weight⟩]) ∧
    (∀ f ∈ wbfFills R s event, f.weight = event.weight) ∧
    ((wbfFills R s event).filter
      (fun f => decide (f.histo = Histo.njets_before_WBF))).length = 1 ∧
    ((⟨Histo.cuts_WBF, 3, event.weight⟩ : Fill) ∈ wbfFills R s event →
      (⟨Histo.cuts_WBF, 2, event.weight⟩ : Fill) ∈ wbfFills R s event) ∧
    (s.alljets.length < 2 →
      wbfFills R s event = [⟨Histo.njets_before_WBF, s.alljets.length, event.weight⟩]) := by
  obtain ⟨h0, h1, h2, h3⟩ := wbfFills_cases R s event
  have hfew : s.alljets.length < 2 →
      wbfFills R s event = [⟨Histo.njets_before_WBF, s.alljets.length, event.weight⟩] :=
    fun hlen => h1 (fun h => absurd (passCut2_two_jets R s h) (not_le.2 hlen))
  refine ⟨by rw [h0], ?_⟩
  by_cases hp : PassCut2 R s
  · by_cases hq : PassCut3 s
    · rw [h3 hp hq] at hfew ⊢
      refine ⟨Or.inr (Or.inr rfl), ?_, by simp, by simp, hfew⟩
      intro f hf
      simp only [List.mem_cons, List.mem_singleton, List.not_mem_nil, or_false] at hf
      rcases hf with rfl | rfl | rfl | rfl <;> rfl
    · rw [h2 hp hq] at hfew ⊢
      refine ⟨Or.inr (Or.inl rfl), ?_, by simp, by simp, hfew⟩
      intro f hf
      simp only [List.mem_cons, List.mem_singleton, List.not_mem_nil, or_false] at hf
      rcases hf with rfl | rfl <;> rfl
  · rw [h1 hp] at hfew ⊢
    refine ⟨Or.inl rfl, ?_, by simp, by simp, hfew⟩
    intro f hf
    rw [List.mem_singleton.1 hf]

/-- Witness for C13: the state `stateWBFOneJet`, with one jet, gets the single fill of
`njets_before_WBF` at 1. -/
theorem wbf_linear_witness :
    wbfFills exampleRivet stateWBFOneJet eventEMu
      = [⟨Histo.njets_before_WBF, 1, eventEMu.weight⟩] := by
  have h := (wbf_linear exampleRivet stateWBFOneJet eventEMu).2.2.2.2.2
    (by simp [stateWBFOneJet])
  simpa [stateWBFOneJet] using h

/-! ## The b-hadron filter -/

theorem goodBLoop_cons (R : Rivet) (pdg : Int) (rest : List Int) (g : Bool) :
    goodBLoop R (pdg :: rest) g = (pdg :: rest).all (fun c => !R.hasBottom c) := by
  induction rest generalizing pdg g with
  | nil =>
    unfold goodBLoop
    cases h : R.hasBottom pdg <;> simp [goodBLoop, h]
  | cons c cs ih =>
    unfold goodBLoop
    cases h : R.hasBottom pdg
    · simp only [Bool.not_false, if_true]
      rw [ih c true]
      simp [h]
    · simp [h]

theorem goodBLoop_eq (R : Rivet) (p : UnstableParticle) :
    (R.hasBottom p.particle.pid && goodBLoop R p.decayPids false) = keptAsBHadron R p := by
  unfold keptAsBHadron
  cases hd : p.decayPids with
  | nil => simp [goodBLoop]
  | cons c cs =>
    rw [goodBLoop_cons]
    simp

theorem bhadronStep_eq (R : Rivet) (BHadrons : List Particle) (p : UnstableParticle) :
    bhadronStep R BHadrons p
      = if keptAsBHadron R p then BHadrons ++ [p.particle] else BHadrons := by
  rw [← goodBLoop_eq]
  unfold bhadronStep
  cases h1 : R.hasBottom p.particle.pid <;> cases h2 : goodBLoop R p.decayPids false <;> simp

theorem selectBHadrons_foldl_eq (R : Rivet) (ufs : List UnstableParticle)
    (init : List Particle) :
    ufs.foldl (bhadronStep R) init
      = init ++ (ufs.filter (keptAsBHadron R)).map (fun p => p.particle) := by
  induction ufs generalizing init with
  | nil => simp
  | cons p ps ih =>
    rw [List.foldl_cons, ih, bhadronStep_eq]
    cases h : keptAsBHadron R p <;> simp [List.filter_cons, h]

/-- C14, as stated, fails for a particle without decay products: a `B+` whose end
vertex has no outgoing particle is bottom-flavoured and none of its (zero) decay
products is bottom-flavoured, yet it is not kept in `BHadrons`. -/
theorem bhadron_without_decay_rejected :
    exampleRivet.hasBottom bPlusNoDecay.particle.pid = true ∧
    (∀ pdg ∈ bPlusNoDecay.decayPids, exampleRivet.hasBottom pdg = false) ∧
    selectBHadrons exampleRivet [bPlusNoDecay] = [] := by
  refine ⟨?_, ?_, ?_⟩
  · simp [exampleRivet, bPlusNoDecay]
  · simp [bPlusNoDecay]
  · simp [selectBHadrons, bhadronStep, goodBLoop, bPlusNoDecay, exampleRivet]

/-- C14, amended: an unstable particle is kept in `BHadrons` iff its PDG code is
bottom-flavoured, it has at least one direct decay product, and none of its direct
decay products is bottom-flavoured; `BHadrons` is the list of the kept particles in the
order of the unstable-particle list, an order-preserving sublist of it. -/
theorem selectBHadrons_spec (R : Rivet) (ufs : List UnstableParticle) :
    selectBHadrons R ufs = (ufs.filter (keptAsBHadron R)).map (fun p => p.particle) ∧
    (∀ p, keptAsBHadron R p = true ↔
      R.hasBottom p.particle.pid = true ∧ p.decayPids ≠ [] ∧
        ∀ pdg ∈ p.decayPids, R.hasBottom pdg = false) ∧
    (∀ b, b ∈ selectBHadrons R ufs ↔
      ∃ p ∈ ufs, p.particle = b ∧ R.hasBottom p.particle.pid = true ∧ p.decayPids ≠ [] ∧
        ∀ pdg ∈ p.decayPids, R.hasBottom pdg = false) ∧
    (selectBHadrons R ufs).Sublist (ufs.map (fun p => p.particle)) := by
  have h1 : selectBHadrons R ufs
      = (ufs.filter (keptAsBHadron R)).map (fun p => p.particle) := by
    unfold selectBHadrons
    rw [selectBHadrons_foldl_eq, List.nil_append]
  have h2 : ∀ p, keptAsBHadron R p = true ↔
      R.hasBottom p.particle.pid = true ∧ p.decayPids ≠ [] ∧
        ∀ pdg ∈ p.decayPids, R.hasBottom pdg = false := by
    intro p
    unfold keptAsBHadron
    simp [and_assoc]
  refine ⟨h1, h2, ?_, ?_⟩
  · intro b
    rw [h1, List.mem_map]
    constructor
    · rintro ⟨p, hp, rfl⟩
      rw [List.mem_filter] at hp
      exact ⟨p, hp.1, rfl, (h2 p).1 hp.2⟩
    · rintro ⟨p, hp, rfl, hk⟩
      exact ⟨p, List.mem_filter.2 ⟨hp, (h2 p).2 hk⟩, rfl⟩
  · rw [h1]
    exact (List.filter_sublist _).map _

/-! ## The role assignment in closed form -/

theorem assignNuP_explicit (s : State) (N : List Particle) :
    assignNuP s N = { s with nu_p := neutrinoRole s.nu_p N s.lepton_p.pid 1 } := by
  cases N with
  | nil => rfl
  | cons inu rest =>
    by_cases h : inu.pid + s.lepton_p.pid = 1
    · simp [assignNuP, neutrinoRole, h]
    · simp [assignNuP, neutrinoRole, h]

theorem assignNuM_explicit (s : State) (N : List Particle) :
    assignNuM s N = { s with nu_m := neutrinoRole s.nu_m N s.lepton_m.pid (-1) } := by
  cases N with
  | nil => rfl
  | cons inu rest =>
    by_cases h : inu.pid + s.lepton_m.pid = -1
    · simp [assignNuM, neutrinoRole, h]
    · simp [assignNuM, neutrinoRole, h]

theorem assignBjetM_explicit (BHadrons : List Particle) (ci : List Int) (bc : List Jet)
    (hlen : ci.length = bc.length)
    (hr : ∀ i ∈ ci, 0 ≤ i ∧ i < (BHadrons.length : Int)) (s : State)
    (hs : s.bjets_central = bc) :
    assignBjetM s BHadrons ci
      = some { s with bjet_m := bjetMinusRole s.bjet_m (firstCentralB bc ci BHadrons) } := by
  rcases bc with _ | ⟨j0, js⟩
  · rw [assignBjetM_nil s BHadrons ci hs]
    cases ci <;> rfl
  · rcases ci with _ | ⟨i0, is⟩
    · simp at hlen
    · have hi := hr i0 (List.mem_cons_self i0 is)
      obtain ⟨b, hb⟩ := at?_isSome BHadrons i0 hi.1 hi.2
      rw [assignBjetM_cons s BHadrons (i0 :: is) is j0 js i0 b hs rfl hb]
      by_cases hq : b.charge > 0
      · simp [firstCentralB, bjetMinusRole, hb, hq]
      · simp [firstCentralB, bjetMinusRole, hb, hq]

theorem assignBjetP_explicit (BHadrons : List Particle) (ci : List Int) (bc : List Jet)
    (hlen : ci.length = bc.length)
    (hr : ∀ i ∈ ci, 0 ≤ i ∧ i < (BHadrons.length : Int)) (s : State)
    (hs : s.bjets_central = bc) :
    assignBjetP s BHadrons ci
      = some { s with bjet_p := bjetPlusRole s.bjet_p (firstCentralB bc ci BHadrons) } := by
  rcases bc with _ | ⟨j0, js⟩
  · rw [assignBjetP_nil s BHadrons ci hs]
    cases ci <;> rfl
  · rcases ci with _ | ⟨i0, is⟩
    · simp at hlen
    · have hi := hr i0 (List.mem_cons_self i0 is)
      obtain ⟨b, hb⟩ := at?_isSome BHadrons i0 hi.1 hi.2
      rw [assignBjetP_cons s BHadrons (i0 :: is) is j0 js i0 b hs rfl hb]
      by_cases hq : b.charge < 0
      · simp [firstCentralB, bjetPlusRole, hb, hq]
      · simp [firstCentralB, bjetPlusRole, hb, hq]

/-- In an event that passes preselection `analyze` returns the state of the channel
analyses run on `roleState`. -/
theorem analyze_selected_explicit (R : Rivet) (s : State) (event : Event)
    (e m : DressedLepton)
    (he : isolatedLeptons R event.vfs_particles event.electron_dressed = [e])
    (hm : isolatedLeptons R event.vfs_particles event.muon_dressed = [m])
    (hq : e.particle.charge * m.particle.charge = -1) :
    analyze R s event = some (runAnalyses R (roleState R s event e m) event) := by
  obtain ⟨_, hlen, _, hr⟩ :=
    labelJets_index_inv R (selectBHadrons R event.ufs) (eventAlljets R event)
  have hr2 : ∀ i ∈ (eventLabels R event).bjets_central_index,
      0 ≤ i ∧ i < ((selectBHadrons R event.ufs).length : Int) :=
    fun i hi => hr i (List.mem_append.2 (Or.inl hi))
  have hBM := assignBjetM_explicit (selectBHadrons R event.ufs)
    (eventLabels R event).bjets_central_index (eventLabels R event).bjets_central hlen hr2
  have hBP := assignBjetP_explicit (selectBHadrons R event.ufs)
    (eventLabels R event).bjets_central_index (eventLabels R event).bjets_central hlen hr2
  unfold roleState eventFirstCentralB
  unfold eventLabels eventAlljets at hBM hBP ⊢
  unfold analyze
  simp only [he, hm] at hBM hBP ⊢
  rw [if_neg (not_not.2 hq), assignLeptons_eq, assignNuP_explicit, assignNuM_explicit,
    hBM _ rfl]
  simp only [Option.bind_eq_bind, Option.some_bind]
  rw [hBP _ rfl]
  rfl

theorem runAnalyses_roles (R : Rivet) (s : State) (event : Event) :
    (runAnalyses R s event).lepton_m = s.lepton_m ∧
    (runAnalyses R s event).lepton_p = s.lepton_p ∧
    (runAnalyses R s event).nu_m = s.nu_m ∧ (runAnalyses R s event).nu_p = s.nu_p ∧
    (runAnalyses R s event).bjet_m = s.bjet_m ∧ (runAnalyses R s event).bjet_p = s.bjet_p := by
  obtain ⟨rest, h⟩ := runAnalyses_eq R s event
  rw [h]
  exact ⟨rfl, rfl, rfl, rfl, rfl, rfl⟩

theorem eventTwoBjets_electron :
    isolatedLeptons exampleRivet eventTwoBjets.vfs_particles eventTwoBjets.electron_dressed
      = [positron30] := eventEMu_electron

theorem eventTwoBjets_muon :
    isolatedLeptons exampleRivet eventTwoBjets.vfs_particles eventTwoBjets.muon_dressed
      = [muon40] := eventEMu_muon

theorem eventTwoBjets_preselected : Preselected exampleRivet eventTwoBjets :=
  ⟨positron30, muon40, eventTwoBjets_electron, eventTwoBjets_muon, eventEMu_charges⟩

theorem eventTwoBjets_alljets :
    eventAlljets exampleRivet eventTwoBjets = [jetCentralA, jetCentralB] := by
  unfold eventAlljets
  rw [eventTwoBjets_electron, eventTwoBjets_muon]
  simp [selectJets, jetStep, deltaRcontrol, overlapStep, absrap, eventTwoBjets, eventEMu,
    jetCentralA, jetCentralB, positron30, muon40, exampleRivet, mom, jet_etamax,
    lepton_jet_isolation_dR]
  norm_num [abs_eq_max_neg, max_def]

theorem eventTwoBjets_bhadrons :
    selectBHadrons exampleRivet eventTwoBjets.ufs
      = [bPlusNearA.particle, bMinusNearB.particle] := by
  simp [selectBHadrons, bhadronStep, goodBLoop, eventTwoBjets, bPlusNearA, bMinusNearB,
    exampleRivet]

theorem eventTwoBjets_labels :
    eventLabels exampleRivet eventTwoBjets
      = ⟨[], [jetCentralA, jetCentralB], [], [0, 1], []⟩ := by
  unfold eventLabels
  rw [eventTwoBjets_alljets, eventTwoBjets_bhadrons]
  simp [labelJets, labelStep, scanBHadrons, scanStep, Labels.empty, bPlusNearA, bMinusNearB,
    jetCentralA, jetCentralB, exampleRivet, mom, absrap]
  norm_num [abs_eq_max_neg, max_def]

theorem eventTwoBjets_first :
    eventFirstCentralB exampleRivet eventTwoBjets = some (jetCentralA, 1) := by
  unfold eventFirstCentralB
  rw [eventTwoBjets_labels, eventTwoBjets_bhadrons]
  simp [firstCentralB, at?, bPlusNearA]

/-! ## B-jet roles -/

/-- In an event with a non-empty `bjets_central`, the first central-b jet has a matched
b-hadron at a valid index. -/
theorem eventFirstCentralB_of_cons (R : Rivet) (event : Event) (j0 : Jet) (js : List Jet)
    (h : (eventLabels R event).bjets_central = j0 :: js) :
    ∃ i0 is b, (eventLabels R event).bjets_central_index = i0 :: is ∧
      at? (selectBHadrons R event.ufs) i0 = some b ∧
      eventFirstCentralB R event = some (j0, b.charge) := by
  obtain ⟨_, hlen, _, hr⟩ :=
    labelJets_index_inv R (selectBHadrons R event.ufs) (eventAlljets R event)
  have hlen2 : (eventLabels R event).bjets_central_index.length
      = (eventLabels R event).bjets_central.length := hlen
  rcases hci : (eventLabels R event).bjets_central_index with _ | ⟨i0, is⟩
  · rw [hci, h] at hlen2
    simp at hlen2
  · have hi : 0 ≤ i0 ∧ i0 < ((selectBHadrons R event.ufs).length : Int) := by
      apply hr i0
      apply List.mem_append.2
      left
      show i0 ∈ (eventLabels R event).bjets_central_index
      rw [hci]
      exact List.mem_cons_self i0 is
    obtain ⟨b, hb⟩ := at?_isSome (selectBHadrons R event.ufs) i0 hi.1 hi.2
    refine ⟨i0, is, b, rfl, hb, ?_⟩
    unfold eventFirstCentralB
    rw [h, hci]
    simp [firstCentralB, hb]

theorem eventFirstCentralB_of_nil (R : Rivet) (event : Event)
    (h : (eventLabels R event).bjets_central = []) : eventFirstCentralB R event = none := by
  unfold eventFirstCentralB
  rw [h]
  cases (eventLabels R event).bjets_central_index <;> rfl

/-- C15, as stated, fails.  In the event `eventTwoBjets` the first central-b jet is
matched to a `B+` and the second to a `B-`; after `analyze` the jet of the `B+` is
`bjet_m`, not `bjet_p`, and the jet of the `B-` is neither `bjet_m` nor `bjet_p`. -/
theorem bjet_role_signs :
    (eventLabels exampleRivet eventTwoBjets).bjets_central = [jetCentralA, jetCentralB] ∧
    (eventLabels exampleRivet eventTwoBjets).bjets_central_index = [0, 1] ∧
    (selectBHadrons exampleRivet eventTwoBjets.ufs).map (fun b => b.charge) = [1, -1] ∧
    ∃ r, analyze exampleRivet (stateOf 0) eventTwoBjets = some r ∧
      r.bjet_m = jetCentralA ∧ r.bjet_p ≠ jetCentralA ∧
      r.bjet_m ≠ jetCentralB ∧ r.bjet_p ≠ jetCentralB := by
  refine ⟨by rw [eventTwoBjets_labels], by rw [eventTwoBjets_labels], ?_, _,
    analyze_selected_explicit exampleRivet (stateOf 0) eventTwoBjets positron30 muon40
      eventTwoBjets_electron eventTwoBjets_muon eventEMu_charges, ?_⟩
  · rw [eventTwoBjets_bhadrons]
    simp [bPlusNearA, bMinusNearB]
  · obtain ⟨_, _, _, _, hm, hp⟩ := runAnalyses_roles exampleRivet
      (roleState exampleRivet (stateOf 0) eventTwoBjets positron30 muon40) eventTwoBjets
    rw [hm, hp]
    unfold roleState
    simp only [eventTwoBjets_first]
    simp [bjetMinusRole, bjetPlusRole, stateOf, jetCentralA, jetCentralB, mom]
    norm_num

/-- C15, amended: in a preselected event whose first central-b jet is `j0`, matched to
a b-hadron of charge `q`, `analyze` returns with `bjet_m` set to `j0` when `q` is
positive and with `bjet_p` set to `j0` when `q` is negative. -/
theorem bjet_roles_of_first (R : Rivet) (s : State) (event : Event) (j0 : Jet) (q : ℚ)
    (hp : Preselected R event) (hf : eventFirstCentralB R event = some (j0, q)) :
    ∃ r, analyze R s event = some r ∧ (0 < q → r.bjet_m = j0) ∧ (q < 0 → r.bjet_p = j0) := by
  obtain ⟨e, m, he, hm, hq⟩ := hp
  obtain ⟨_, _, _, _, h5, h6⟩ := runAnalyses_roles R (roleState R s event e m) event
  refine ⟨_, analyze_selected_explicit R s event e m he hm hq, ?_, ?_⟩
  · intro h
    rw [h5]
    show bjetMinusRole s.bjet_m (eventFirstCentralB R event) = j0
    rw [hf]
    simp [bjetMinusRole, h]
  · intro h
    rw [h6]
    show bjetPlusRole s.bjet_p (eventFirstCentralB R event) = j0
    rw [hf]
    simp [bjetPlusRole, h]

/-- Witness for C15 (amended): in `eventTwoBjets` the first central-b jet
`jetCentralA` is matched to a `B+`, and `bjet_m` is set to it. -/
theorem bjet_roles_of_first_witness :
    Preselected exampleRivet eventTwoBjets ∧
    eventFirstCentralB exampleRivet eventTwoBjets = some (jetCentralA, 1) ∧
    ∃ r, analyze exampleRivet (stateOf 0) eventTwoBjets = some r ∧ r.bjet_m = jetCentralA := by
  obtain ⟨r, h1, h2, _⟩ := bjet_roles_of_first exampleRivet (stateOf 0) eventTwoBjets
    jetCentralA 1 eventTwoBjets_preselected eventTwoBjets_first
  exact ⟨eventTwoBjets_preselected, eventTwoBjets_first, r, h1, h2 (by norm_num)⟩

/-- C16: in a preselected event `analyze` returns, and `bjet_m`, `bjet_p` afterwards are
functions (`bjetMinusRole`, `bjetPlusRole`) of their prior values, the first central-b
jet and the charge of its matched b-hadron: a non-empty `bjets_central` has such a
first jet with a matched hadron; when the charge has not the sign of a role that role
keeps its prior value, and with an empty `bjets_central` both do; the first jet and
charge do not depend on the later central-b jets, their indices, or the hadrons at
other positions. -/
theorem bjet_roles_first_only (R : Rivet) (s : State) (event : Event)
    (hp : Preselected R event) :
    ∃ r, analyze R s event = some r ∧
      r.bjet_m = bjetMinusRole s.bjet_m (eventFirstCentralB R event) ∧
      r.bjet_p = bjetPlusRole s.bjet_p (eventFirstCentralB R event) ∧
      (∀ j0 js, (eventLabels R event).bjets_central = j0 :: js →
        ∃ i0 is b, (eventLabels R event).bjets_central_index = i0 :: is ∧
          at? (selectBHadrons R event.ufs) i0 = some b ∧
          eventFirstCentralB R event = some (j0, b.charge) ∧
          (¬ 0 < b.charge → r.bjet_m = s.bjet_m) ∧
          (¬ b.charge < 0 → r.bjet_p = s.bjet_p)) ∧
      ((eventLabels R event).bjets_central = [] →
        r.bjet_m = s.bjet_m ∧ r.bjet_p = s.bjet_p) ∧
      (∀ (j0 : Jet) (js js' : List Jet) (i0 : Int) (is is' : List Int)
          (B B' : List Particle),
        (at? B i0).map (fun b => b.charge) = (at? B' i0).map (fun b => b.charge) →
        firstCentralB (j0 :: js) (i0 :: is) B = firstCentralB (j0 :: js') (i0 :: is') B') := by
  obtain ⟨e, m, he, hm, hq⟩ := hp
  obtain ⟨_, _, _, _, h5, h6⟩ := runAnalyses_roles R (roleState R s event e m) event
  have hM : (runAnalyses R (roleState R s event e m) event).bjet_m
      = bjetMinusRole s.bjet_m (eventFirstCentralB R event) := h5
  have hP : (runAnalyses R (roleState R s event e m) event).bjet_p
      = bjetPlusRole s.bjet_p (eventFirstCentralB R event) := h6
  refine ⟨_, analyze_selected_explicit R s event e m he hm hq, hM, hP, ?_, ?_, ?_⟩
  · intro j0 js hc
    obtain ⟨i0, is, b, hci, hb, hf⟩ := eventFirstCentralB_of_cons R event j0 js hc
    refine ⟨i0, is, b, hci, hb, hf, ?_, ?_⟩
    · intro hn
      rw [hM, hf]
      simp [bjetMinusRole, hn]
    · intro hn
      rw [hP, hf]
      simp [bjetPlusRole, hn]
  · intro hc
    rw [hM, hP, eventFirstCentralB_of_nil R event hc]
    exact ⟨rfl, rfl⟩
  · intro j0 js js' i0 is is' B B' hB
    unfold firstCentralB
    simp only []
    cases h1 : at? B i0 <;> cases h2 : at? B' i0 <;> simp [h1, h2] at hB ⊢
    exact hB

/-- Witness for C16: in `eventTwoBjets` the first central-b jet is matched to a `B+`,
so `bjet_p` keeps its prior value although the second central-b jet is matched to a
`B-`. -/
theorem bjet_roles_first_only_witness :
    Preselected exampleRivet eventTwoBjets ∧
    ∃ r, analyze exampleRivet (stateOf 0) eventTwoBjets = some r ∧
      r.bjet_m = jetCentralA ∧ r.bjet_p = (stateOf 0).bjet_p := by
  obtain ⟨r, h1, h2, h3, _⟩ := bjet_roles_first_only exampleRivet (stateOf 0) eventTwoBjets
    eventTwoBjets_preselected
  refine ⟨eventTwoBjets_preselected, r, h1, ?_, ?_⟩
  · rw [h2, eventTwoBjets_first]
    simp [bjetMinusRole]
  · rw [h3, eventTwoBjets_first]
    simp [bjetPlusRole]

/-! ## Neutrino roles -/

/-- C17: in a preselected event `analyze` returns, and only the leading neutrino is
examined: `nu_p` afterwards is the leading neutrino `N[0]` when `N` is non-empty and
`pid(N[0]) + pid(lepton_p) = 1` and its prior value otherwise; `nu_m` is `N[0]` when
`N` is non-empty and `pid(N[0]) + pid(lepton_m) = -1` and its prior value otherwise. -/
theorem neutrino_roles_leading_only (R : Rivet) (s : State) (event : Event)
    (hp : Preselected R event) :
    ∃ r, analyze R s event = some r ∧
      r.nu_p = neutrinoRole s.nu_p event.neutrinos r.lepton_p.pid 1 ∧
      r.nu_m = neutrinoRole s.nu_m event.neutrinos r.lepton_m.pid (-1) ∧
      (event.neutrinos = [] → r.nu_p = s.nu_p ∧ r.nu_m = s.nu_m) ∧
      (∀ inu rest, event.neutrinos = inu :: rest →
        r.nu_p = (if inu.pid + r.lepton_p.pid = 1 then inu else s.nu_p) ∧
        r.nu_m = (if inu.pid + r.lepton_m.pid = -1 then inu else s.nu_m)) := by
  obtain ⟨e, m, he, hm, hq⟩ := hp
  obtain ⟨h1, h2, h3, h4, _, _⟩ := runAnalyses_roles R (roleState R s event e m) event
  have hP : (runAnalyses R (roleState R s event e m) event).nu_p
      = neutrinoRole s.nu_p event.neutrinos
          (runAnalyses R (roleState R s event e m) event).lepton_p.pid 1 := by
    rw [h4, h2]
    rfl
  have hM : (runAnalyses R (roleState R s event e m) event).nu_m
      = neutrinoRole s.nu_m event.neutrinos
          (runAnalyses R (roleState R s event e m) event).lepton_m.pid (-1) := by
    rw [h3, h1]
    rfl
  refine ⟨_, analyze_selected_explicit R s event e m he hm hq, hP, hM, ?_, ?_⟩
  · intro hN
    rw [hP, hM, hN]
    exact ⟨rfl, rfl⟩
  · intro inu rest hN
    rw [hP, hM, hN]
    exact ⟨rfl, rfl⟩

/-- Witness for C17: in `eventEMu` the leading neutrino is a muon antineutrino and the
second an electron neutrino; `nu_m` is set to the leading one, and `nu_p` keeps its
prior value although the second neutrino satisfies the check with the positron. -/
theorem neutrino_roles_leading_only_witness :
    Preselected exampleRivet eventEMu ∧
    ∃ r, analyze exampleRivet (stateOf 0) eventEMu = some r ∧
      r.lepton_p = positron30.particle ∧
      r.nu_m = ⟨-14, 0, mom 25 0⟩ ∧ r.nu_p = (stateOf 0).nu_p ∧
      (12 : Int) + r.lepton_p.pid = 1 := by
  obtain ⟨r, h1, _, _, _, h5⟩ := neutrino_roles_leading_only exampleRivet (stateOf 0)
    eventEMu eventEMu_preselected
  have hx := analyze_selected_explicit exampleRivet (stateOf 0) eventEMu positron30 muon40
    eventEMu_electron eventEMu_muon eventEMu_charges
  have hr : r = runAnalyses exampleRivet
      (roleState exampleRivet (stateOf 0) eventEMu positron30 muon40) eventEMu :=
    Option.some.inj (h1.symm.trans hx)
  obtain ⟨k1, k2, _⟩ := runAnalyses_roles exampleRivet
    (roleState exampleRivet (stateOf 0) eventEMu positron30 muon40) eventEMu
  have hlp : r.lepton_p = positron30.particle := by
    rw [hr, k2]
    simp [roleState, positron30]
  have hlm : r.lepton_m = muon40.particle := by
    rw [hr, k1]
    simp [roleState, positron30]
  obtain ⟨a, b⟩ := h5 ⟨-14, 0, mom 25 0⟩ [⟨12, 0, mom 20 0⟩] rfl
  rw [hlp] at a
  rw [hlm] at b
  refine ⟨eventEMu_preselected, r, h1, hlp, ?_, ?_, ?_⟩
  · rw [b]
    simp [muon40]
  · rw [a]
    simp [positron30]
  · rw [hlp]
    simp [positron30]

/-- C20: in a preselected event where `lepton_p` has PDG code -11 or -13 and `lepton_m`
PDG code 11 or 13, the two checks on the leading neutrino cannot both hold, and after
`analyze` at least one of `nu_p`, `nu_m` has its prior value: at most one of them is
assigned in the event. -/
theorem neutrino_pairing_one_sided (R : Rivet) (s : State) (event : Event)
    (hp : Preselected R event) :
    ∃ r, analyze R s event = some r ∧
      ((r.lepton_p.pid = -11 ∨ r.lepton_p.pid = -13) →
        (r.lepton_m.pid = 11 ∨ r.lepton_m.pid = 13) →
        (∀ inu rest, event.neutrinos = inu :: rest →
          ¬ (inu.pid + r.lepton_p.pid = 1 ∧ inu.pid + r.lepton_m.pid = -1)) ∧
        (r.nu_p = s.nu_p ∨ r.nu_m = s.nu_m)) := by
  obtain ⟨e, m, he, hm, hq⟩ := hp
  obtain ⟨h1, h2, h3, h4, _, _⟩ := runAnalyses_roles R (roleState R s event e m) event
  have hP : (runAnalyses R (roleState R s event e m) event).nu_p
      = neutrinoRole s.nu_p event.neutrinos
          (runAnalyses R (roleState R s event e m) event).lepton_p.pid 1 := by
    rw [h4, h2]
    rfl
  have hM : (runAnalyses R (roleState R s event e m) event).nu_m
      = neutrinoRole s.nu_m event.neutrinos
          (runAnalyses R (roleState R s event e m) event).lepton_m.pid (-1) := by
    rw [h3, h1]
    rfl
  refine ⟨_, analyze_selected_explicit R s event e m he hm hq, ?_⟩
  intro hlp hlm
  have hex : ∀ x : Int,
      ¬ (x + (runAnalyses R (roleState R s event e m) event).lepton_p.pid = 1 ∧
        x + (runAnalyses R (roleState R s event e m) event).lepton_m.pid = -1) := by
    intro x hx
    rcases hlp with h | h <;> rcases hlm with k | k <;> rw [h, k] at hx <;> omega
  refine ⟨fun inu _ _ => hex inu.pid, ?_⟩
  rw [hP, hM]
  cases hN : event.neutrinos with
  | nil => exact Or.inl rfl
  | cons inu rest =>
    by_cases c : inu.pid + (runAnalyses R (roleState R s event e m) event).lepton_p.pid = 1
    · right
      have c2 : ¬ inu.pid + (runAnalyses R (roleState R s event e m) event).lepton_m.pid
          = -1 := fun c2 => hex inu.pid ⟨c, c2⟩
      simp [neutrinoRole, c2]
    · left
      simp [neutrinoRole, c]

/-- Witness for C20: in `eventEMu` (`lepton_p` a positron, `lepton_m` a muon) `nu_p`
keeps its prior value. -/
theorem neutrino_pairing_one_sided_witness :
    Preselected exampleRivet eventEMu ∧
    ∃ r, analyze exampleRivet (stateOf 0) eventEMu = some r ∧
      r.lepton_p.pid = -11 ∧ r.lepton_m.pid = 13 ∧
      (r.nu_p = (stateOf 0).nu_p ∨ r.nu_m = (stateOf 0).nu_m) := by
  obtain ⟨r, h1, h2⟩ := neutrino_pairing_one_sided exampleRivet (stateOf 0) eventEMu
    eventEMu_preselected
  have hx := analyze_selected_explicit exampleRivet (stateOf 0) eventEMu positron30 muon40
    eventEMu_electron eventEMu_muon eventEMu_charges
  have hr : r = runAnalyses exampleRivet
      (roleState exampleRivet (stateOf 0) eventEMu positron30 muon40) eventEMu :=
    Option.some.inj (h1.symm.trans hx)
  obtain ⟨k1, k2, _⟩ := runAnalyses_roles exampleRivet
    (roleState exampleRivet (stateOf 0) eventEMu positron30 muon40) eventEMu
  have hlp : r.lepton_p.pid = -11 := by
    rw [hr, k2]
    simp [roleState, positron30]
  have hlm : r.lepton_m.pid = 13 := by
    rw [hr, k1]
    simp [roleState, positron30, muon40]
  exact ⟨eventEMu_preselected, r, h1, hlp, hlm, (h2 (Or.inl hlp) (Or.inr hlm)).2⟩

/-! ## Index safety and the counting bound -/

/-- C18: every value stored in `bjets_central_index` or `bjets_forward_index` is a
position of `BHadrons` (`0 <= i < |BHadrons|`), never the sentinel `-1`; a scan with
`dRmin < 0.4` has `bfound` set to such a position; hence for every
`ibjet < |bjets_central|` the index `bjets_central_index[ibjet]` exists and the lookup
`BHadrons[bjets_central_index[ibjet]]` is in bounds. -/
theorem index_safety (R : Rivet) (BHadrons : List Particle) (alljets : List Jet) :
    (∀ i ∈ (labelJets R BHadrons alljets).bjets_central_index
        ++ (labelJets R BHadrons alljets).bjets_forward_index,
      0 ≤ i ∧ i < (BHadrons.length : Int) ∧ i ≠ -1) ∧
    (∀ (ci fi : List Int) (j : Jet), (scanBHadrons R ci fi BHadrons j).dRmin < 0.4 →
      (scanBHadrons R ci fi BHadrons j).bfound ≠ -1 ∧
      0 ≤ (scanBHadrons R ci fi BHadrons j).bfound ∧
      (scanBHadrons R ci fi BHadrons j).bfound < (BHadrons.length : Int)) ∧
    (∀ ibjet, ibjet < (labelJets R BHadrons alljets).bjets_central.length →
      ∃ i b, (labelJets R BHadrons alljets).bjets_central_index[ibjet]? = some i ∧
        at? BHadrons i = some b) := by
  obtain ⟨_, hlen, _, hr⟩ := labelJets_index_inv R BHadrons alljets
  refine ⟨?_, ?_, ?_⟩
  · intro i hi
    obtain ⟨h0, h1⟩ := hr i hi
    exact ⟨h0, h1, by omega⟩
  · intro ci fi j hd
    obtain ⟨k, hk, e, _, _⟩ := scanBHadrons_found R ci fi BHadrons j hd
    rw [e]
    refine ⟨by omega, Int.ofNat_nonneg k, by exact_mod_cast hk⟩
  · intro ibjet hlt
    have hlt2 : ibjet < (labelJets R BHadrons alljets).bjets_central_index.length := by
      rw [hlen]
      exact hlt
    have hmem : (labelJets R BHadrons alljets).bjets_central_index[ibjet]
        ∈ (labelJets R BHadrons alljets).bjets_central_index := List.getElem_mem hlt2
    obtain ⟨h0, h1⟩ := hr _ (List.mem_append.2 (Or.inl hmem))
    obtain ⟨b, hb⟩ := at?_isSome BHadrons _ h0 h1
    exact ⟨_, b, List.getElem?_eq_getElem hlt2, hb⟩

/-- A duplicate-free list of integers in `[0, n)` has at most `n` elements. -/
theorem nodup_length_le (l : List Int) (n : Nat) (hnd : l.Nodup)
    (hr : ∀ i ∈ l, 0 ≤ i ∧ i < (n : Int)) : l.length ≤ n := by
  have hsub : l.toFinset ⊆ Finset.Ico (0 : Int) n := by
    intro i hi
    rw [List.mem_toFinset] at hi
    rw [Finset.mem_Ico]
    exact hr i hi
  have hcard := Finset.card_le_card hsub
  rw [List.toFinset_card_of_nodup hnd, Int.card_Ico] at hcard
  simpa using hcard

/-- C19: the number of b-labelled jets is at most the number of b-hadrons; with no
b-hadron every jet is labelled light: `lightjets = alljets` and there is no b-jet. -/
theorem blabel_count_bound (R : Rivet) (BHadrons : List Particle) (alljets : List Jet) :
    (labelJets R BHadrons alljets).bjets_central.length
        + (labelJets R BHadrons alljets).bjets_forward.length ≤ BHadrons.length ∧
    (labelJets R [] alljets).lightjets = alljets ∧
    (labelJets R [] alljets).bjets_central = [] ∧
    (labelJets R [] alljets).bjets_forward = [] := by
  have hbound : ∀ B : List Particle,
      (labelJets R B alljets).bjets_central.length
        + (labelJets R B alljets).bjets_forward.length ≤ B.length := by
    intro B
    obtain ⟨hnd, hc, hf, hr⟩ := labelJets_index_inv R B alljets
    have h := nodup_length_le _ B.length hnd hr
    rw [List.length_append, hc, hf] at h
    exact h
  refine ⟨hbound BHadrons, ?_⟩
  have h0 := hbound []
  simp only [List.length_nil, Nat.le_zero, Nat.add_eq_zero, List.length_eq_zero] at h0
  obtain ⟨labels, hlen, hl, hc, hf⟩ := labelJets_labels R [] alljets
  obtain ⟨sl, _, _⟩ := labelJets_sublists R [] alljets
  have hsum := jetsLabelled_length alljets labels hlen
  rw [← hl, ← hc, ← hf, h0.1, h0.2] at hsum
  refine ⟨sl.eq_of_length ?_, h0.1, h0.2⟩
  simpa using hsum

end WWbb
